import Mathlib

/-!
# Verification of the nebula-tunes core runtime

Shallow embedding of the core runtime of the nebula-tunes rhythm-game
repository, together with proofs of the specification claims about it.

The embedding covers:
* the judgment engine and per-key game-state update
  (`core/src/game_page.rs`, `GamePage::on_input`; the same logic appears in
  `src/loops/main_loop.rs`),
* the page state machine (`core/src/pages.rs`, `PageManager`),
* the BGA image decode cache and background removal
  (`src/media/image.rs`),
* the audio preload loop (`src/loops/audio.rs`).

Rust `f32`/`f64` values (ratios, gauge) are embedded as `ℚ`, time spans as
their nanosecond count (`ℕ`), and `u32` counters as `ℕ` with explicit
saturation at `2^32 - 1`.
-/

namespace NebulaTunes

/-! ## Judgment engine (`core/src/game_page.rs`) -/

/-- Player side of a note (`bms_rs::PlayerSide`, only the two sides used). -/
inductive PlayerSide where
  | Player1
  | Player2
deriving DecidableEq, Repr

/-- Note key of the chart processor (`bms_rs::Key`): scratch, numbered key,
or any other variant (condensed into `other`, which `key_to_lane` ignores). -/
inductive BmsKey where
  | scratch (n : Nat)
  | key (n : Nat)
  | other
deriving DecidableEq, Repr

/-- `key_to_lane` from `core/src/lib.rs`: scratch maps to lane 0, keys 1..=7
map to themselves, everything else has no lane. -/
def key_to_lane : BmsKey → Option Nat
  | BmsKey.scratch _ => some 0
  | BmsKey.key n => if 1 ≤ n ∧ n ≤ 7 then some n else none
  | BmsKey.other => none

/-- Chart events relevant to the game page (`bms_rs::ChartEvent`):
notes, background music triggers and BGA changes. -/
inductive ChartEv where
  | note (side : PlayerSide) (key : BmsKey) (wavId : Option Nat)
  | bgm (wavId : Option Nat)
  | bgaChange (layer : Nat) (bmpId : Option Nat)
deriving DecidableEq, Repr

/-- A playhead event: stable identity plus payload
(`bms_rs::PlayheadEvent`). -/
structure PlayheadEvent where
  evId : Nat
  event : ChartEv
deriving DecidableEq, Repr

/-- A visible-note entry as yielded by `visible_events()`: an event together
with its display-progress ratio. -/
abbrev VisibleEntry := PlayheadEvent × ℚ

/-- The candidate filter of the key-down loop in `GamePage::on_input`:
the visible event is a note, belongs to Player 1, its key maps to the pressed
lane `idx`, and its ratio lies in `[0, 1]`. -/
def isCandidate (idx : Nat) (e : VisibleEntry) : Bool :=
  match e.1.event with
  | ChartEv.note side key _ =>
      side = PlayerSide.Player1 && key_to_lane key = some idx
        && decide (0 ≤ e.2) && decide (e.2 ≤ 1)
  | _ => false

/-- The `best` accumulator loop of `GamePage::on_input`: scan the visible
events, keeping the first candidate seen with the strictly smallest ratio. -/
def findBestAux (idx : Nat) (best : Option VisibleEntry) :
    List VisibleEntry → Option VisibleEntry
  | [] => best
  | e :: rest =>
      if isCandidate idx e then
        match best with
        | some b =>
            if e.2 < b.2 then findBestAux idx (some e) rest
            else findBestAux idx best rest
        | none => findBestAux idx (some e) rest
      else findBestAux idx best rest

/-- Best-note selection of `GamePage::on_input` for a key-down on lane
`idx`. -/
def findBest (idx : Nat) (visible : List VisibleEntry) : Option VisibleEntry :=
  findBestAux idx none visible

/-- Judgment parameters (`JudgeParams`): the visible-window time span and the
four ascending judgment windows, all in nanoseconds. -/
structure JudgeParams where
  travel : Nat
  windows : Fin 4 → Nat

/-- Timing error in nanoseconds derived from a ratio:
`(travel as f64 * r as f64).max(0.0) as i64`, embedded exactly as
`⌊max (travel * r) 0⌋` (truncation of a non-negative value is its floor). -/
def errNanos (travel : Nat) (r : ℚ) : Nat :=
  (⌊max ((travel : ℚ) * r) 0⌋).toNat

/-- The five-way grade classification of `GamePage::on_input`: compare the
error against the four ascending windows; grade 4 is best, grade 0 worst. -/
def judgeLevel (jp : JudgeParams) (dt : Nat) : Nat :=
  if dt ≤ jp.windows 0 then 4
  else if dt ≤ jp.windows 1 then 3
  else if dt ≤ jp.windows 2 then 2
  else if dt ≤ jp.windows 3 then 1
  else 0

/-- `u32::MAX`, the saturation bound of the combo counter. -/
def u32Max : Nat := 2 ^ 32 - 1

/-- `u32::saturating_add(1)` on the combo counter. -/
def satAdd1 (c : Nat) : Nat := min (c + 1) u32Max

/-- Game state (`GameState` in `core/src/game_page.rs`): the eight pressed
flags, the health gauge and the combo counter. -/
structure GameState where
  pressed : List Bool
  gauge : ℚ
  combo : Nat
deriving DecidableEq, Repr

/-- The freshly constructed state of `GamePage::new`. -/
def initialGameState : GameState :=
  { pressed := List.replicate 8 false
    gauge := 1 / 2
    combo := 0 }

/-- Messages to the audio loop (`loops/audio.rs::Msg`). -/
inductive AudioMsg where
  | PreloadAll (files : List String)
  | Play (path : String)
deriving DecidableEq, Repr

/-- Messages to the visual loop (`loops::VisualMsg`), restricted to the
variants emitted by the judgment path. -/
inductive VisualMsg where
  | BgaPoorTrigger
deriving DecidableEq, Repr

/-- Outcome of handling one input message: the new state, the audio and
visual messages sent, and the `consumed` flag returned to the caller. -/
structure InputOutcome where
  state : GameState
  audioOut : List AudioMsg
  visualOut : List VisualMsg
  consumed : Bool

/-- The audio side effect of a successful judgment: play the note's keysound
when the note has a `wav_id` with a resolved path. -/
def keysound (audioPaths : Nat → Option String) (ev : PlayheadEvent) :
    List AudioMsg :=
  match ev.event with
  | ChartEv.note _ _ (some wavId) =>
      match audioPaths wavId with
      | some path => [AudioMsg.Play path]
      | none => []
  | _ => []

/-- State update and side effects per judgment grade
(the `match judge_level` block of `GamePage::on_input`). -/
def applyJudge (audioPaths : Nat → Option String) (st : GameState)
    (level : Nat) (ev : PlayheadEvent) :
    GameState × List AudioMsg × List VisualMsg :=
  if level = 4 ∨ level = 3 then
    ({ st with combo := satAdd1 st.combo, gauge := min (st.gauge + 2/100) 1 },
      keysound audioPaths ev, [])
  else if level = 2 then
    ({ st with combo := satAdd1 st.combo, gauge := min (st.gauge + 1/100) 1 },
      keysound audioPaths ev, [])
  else if level = 1 then
    ({ st with combo := 0, gauge := max (st.gauge - 3/100) 0 },
      [], [VisualMsg.BgaPoorTrigger])
  else
    ({ st with combo := 0, gauge := max (st.gauge - 5/100) 0 },
      [], [VisualMsg.BgaPoorTrigger])

/-- Handling of `InputMsg::KeyDown(idx)` in `GamePage::on_input`: set the
pressed flag, select the best candidate note, and either no-op (returning
`Ok(true)`) or judge the selected note. -/
def onKeyDown (jp : JudgeParams) (audioPaths : Nat → Option String)
    (visible : List VisibleEntry) (idx : Nat) (st : GameState) :
    InputOutcome :=
  let st1 := { st with pressed := st.pressed.set idx true }
  match findBest idx visible with
  | none => { state := st1, audioOut := [], visualOut := [], consumed := true }
  | some (ev, r) =>
      let dt := errNanos jp.travel r
      let lvl := judgeLevel jp dt
      let (st2, aud, vis) := applyJudge audioPaths st1 lvl ev
      { state := st2, audioOut := aud, visualOut := vis, consumed := true }

/-- Handling of `InputMsg::KeyUp(idx)`: clear the pressed flag. -/
def onKeyUp (idx : Nat) (st : GameState) : InputOutcome :=
  { state := { st with pressed := st.pressed.set idx false }
    audioOut := [], visualOut := [], consumed := true }

/-- An input message (`loops::InputMsg`). -/
inductive InputMsg where
  | KeyDown (idx : Nat)
  | KeyUp (idx : Nat)
deriving DecidableEq, Repr

/-- One judged input step: the visible-note set at that instant is part of
the step's input, since it changes every tick. -/
def inputStep (jp : JudgeParams) (audioPaths : Nat → Option String)
    (st : GameState) : InputMsg × List VisibleEntry → GameState
  | (InputMsg.KeyDown idx, visible) =>
      (onKeyDown jp audioPaths visible idx st).state
  | (InputMsg.KeyUp idx, _) => (onKeyUp idx st).state

/-- Run a sequence of input steps from a state. -/
def runInputs (jp : JudgeParams) (audioPaths : Nat → Option String)
    (st : GameState) (steps : List (InputMsg × List VisibleEntry)) :
    GameState :=
  steps.foldl (inputStep jp audioPaths) st

/-! ## Page state machine (`core/src/pages.rs`) -/

/-- Page identifiers (`PageId`). -/
inductive PageId where
  | Game
  | Title
  | Settings
  | Result
  | SongSelect
deriving DecidableEq, Repr

/-- Per-page configuration (`PageConfig`); the Rust `Default` is
`cache_enabled = true`. -/
structure PageConfig where
  cache_enabled : Bool
deriving DecidableEq, Repr

/-- The default page configuration. -/
def defaultPageConfig : PageConfig := { cache_enabled := true }

/-- A page instance: its id plus a creation stamp that models the identity of
the boxed `dyn Page` allocation (two instances built at different times have
different stamps). -/
structure PageInstance where
  pid : PageId
  gen : Nat
deriving DecidableEq, Repr

/-- Lifecycle hooks observable on pages. `hookInit` stands for `on_init`;
`pause`/`resume` are the `PageEvent::Pause`/`Resume` deliveries. -/
inductive HookEv where
  | hookInit
  | enter
  | leave
  | cleanup
  | pause
  | resume
deriving DecidableEq, Repr

/-- Association-list lookup, modelling `HashMap::get`. -/
def alookup {κ α : Type} [DecidableEq κ] (l : List (κ × α)) (id : κ) :
    Option α :=
  (l.find? (fun e => e.1 = id)).map (fun e => e.2)

/-- Association-list removal, modelling `HashMap::remove`'s effect on the
map. -/
def aerase {κ α : Type} [DecidableEq κ] (l : List (κ × α)) (id : κ) :
    List (κ × α) :=
  l.filter (fun e => ¬ e.1 = id)

/-- Association-list insertion, modelling `HashMap::insert` (replaces any
previous entry for the key). -/
def ainsert {κ α : Type} [DecidableEq κ] (l : List (κ × α)) (id : κ) (v : α) :
    List (κ × α) :=
  (id, v) :: aerase l id

/-- The page manager state (`PageManager`), restricted to the fields the
transitions read and write. `nextGen` is the stamp the next built instance
receives. The page stack stores ids with the top at the head. -/
structure PageManager where
  cached_pages : List (PageId × PageInstance)
  current_page_id : Option PageId
  page_stack : List PageId
  page_configs : List (PageId × PageConfig)
  builders : List PageId
  nextGen : Nat
deriving Repr

/-- A hook-trace entry: which page id received which hook. -/
abbrev TraceEntry := PageId × HookEv

/-- Result of one manager operation: the new manager, the hooks invoked in
order, and whether the operation returned `Ok`. -/
structure StepResult where
  mgr : PageManager
  trace : List TraceEntry
  ok : Bool

/-- `PageManager::get_page_config`: stored config or the default. -/
def get_page_config (m : PageManager) (id : PageId) : PageConfig :=
  (alookup m.page_configs id).getD defaultPageConfig

/-- `PageManager::handle_page_leave`: run `on_leave` on the cached instance,
plus `on_cleanup` when the page is not cache-enabled. The instance stays in
`cached_pages`; only hooks run. -/
def handle_page_leave (m : PageManager) (id : PageId) : List TraceEntry :=
  if (alookup m.cached_pages id).isSome then
    (id, HookEv.leave) ::
      (if (get_page_config m id).cache_enabled then [] else [(id, HookEv.cleanup)])
  else []

/-- `PageManager::create_page`: build a fresh instance via the registered
builder, or fail when no builder is registered for the id. -/
def create_page (m : PageManager) (id : PageId) :
    Option (PageInstance × PageManager) :=
  if id ∈ m.builders then
    some ({ pid := id, gen := m.nextGen }, { m with nextGen := m.nextGen + 1 })
  else none

/-- The leave-hooks fired on the current page at the start of a transition
(`if let Some(current_id) = self.current_page_id { self.handle_page_leave(..) }`). -/
def currentLeaveTrace (m : PageManager) : List TraceEntry :=
  match m.current_page_id with
  | some cid => handle_page_leave m cid
  | none => []

/-- `PageManager::switch_to`. -/
def switch_to (m : PageManager) (id : PageId) : StepResult :=
  let config := get_page_config m id
  let leaveTrace := currentLeaveTrace m
  if config.cache_enabled then
    match alookup m.cached_pages id with
    | some _ =>
        { mgr := { m with current_page_id := some id }
          trace := leaveTrace ++ [(id, HookEv.enter)]
          ok := true }
    | none =>
        match create_page m id with
        | none => { mgr := m, trace := leaveTrace, ok := false }
        | some (inst, m') =>
            { mgr := { m' with
                cached_pages := ainsert m'.cached_pages id inst
                current_page_id := some id }
              trace := leaveTrace ++ [(id, HookEv.hookInit), (id, HookEv.enter)]
              ok := true }
  else
    let cleanupTrace :=
      if (alookup m.cached_pages id).isSome then [(id, HookEv.cleanup)] else []
    let m1 := { m with cached_pages := aerase m.cached_pages id }
    match create_page m1 id with
    | none => { mgr := m1, trace := leaveTrace ++ cleanupTrace, ok := false }
    | some (inst, m') =>
        { mgr := { m' with
            cached_pages := ainsert m'.cached_pages id inst
            current_page_id := some id }
          trace := leaveTrace ++ cleanupTrace
            ++ [(id, HookEv.hookInit), (id, HookEv.enter)]
          ok := true }

/-- `PageManager::push_page`: pause and stack the current page id, then
delegate to `switch_to` (whose failure leaves the pushed id on the stack). -/
def push_page (m : PageManager) (id : PageId) : StepResult :=
  match m.current_page_id with
  | some cid =>
      let pauseTrace :=
        if (alookup m.cached_pages cid).isSome then [(cid, HookEv.pause)] else []
      let m1 := { m with page_stack := cid :: m.page_stack }
      let r := switch_to m1 id
      { r with trace := pauseTrace ++ r.trace }
  | none => switch_to m id

/-- `PageManager::pop_page`: leave the current page, restore the top of the
stack as current, and resume + re-enter its cached instance. -/
def pop_page (m : PageManager) : StepResult :=
  let leaveTrace := currentLeaveTrace m
  match m.page_stack with
  | [] => { mgr := m, trace := leaveTrace, ok := true }
  | prev :: rest =>
      let m1 := { m with page_stack := rest, current_page_id := some prev }
      let resumeTrace :=
        if (alookup m1.cached_pages prev).isSome then
          [(prev, HookEv.resume), (prev, HookEv.enter)]
        else []
      { mgr := m1, trace := leaveTrace ++ resumeTrace, ok := true }

/-! ## Background removal (`src/media/image.rs::remove_background`)

The buffer is a list of RGBA bytes; a pixel position is an `(x, y)` pair.
The flood labeling of `imageproc::connected_components` is not part of this
repository; it is embedded below by an executable fixpoint of 4-neighbour
expansion over the black mask, and related to plain 4-connectivity
(`Relation.ReflTransGen`) by proof. -/

/-- A pixel position `(x, y)`. -/
abbrev Pos := Nat × Nat

/-- All grid positions of a `w × h` image. -/
def cells (w h : Nat) : Finset Pos := Finset.range w ×ˢ Finset.range h

/-- Byte offset of the pixel at `p` (`((y as usize) * width + x) * 4`). -/
def pixelBase (w : Nat) (p : Pos) : Nat := (p.2 * w + p.1) * 4

/-- The binary mask predicate of `remove_background`: the 4-byte slice at the
pixel exists and holds `r = g = b = 0` with `a ≠ 0` (an out-of-range slice is
not black, matching `rgba_buf.get(base..base + 4)` returning `None`). -/
def isBlackPix (buf : List Nat) (w : Nat) (p : Pos) : Bool :=
  let base := pixelBase w p
  decide (base + 4 ≤ buf.length)
    && decide (buf.getD base 0 = 0)
    && decide (buf.getD (base + 1) 0 = 0)
    && decide (buf.getD (base + 2) 0 = 0)
    && !decide (buf.getD (base + 3) 0 = 0)

/-- An in-bounds pure-black pixel: a foreground cell of the mask. -/
def blackCell (buf : List Nat) (w h : Nat) (p : Pos) : Bool :=
  decide (p.1 < w) && decide (p.2 < h) && isBlackPix buf w p

/-- 4-neighbourhood on positions. -/
def adj4 (p q : Pos) : Bool :=
  (decide (p.1 = q.1) && (decide (q.2 = p.2 + 1) || decide (p.2 = q.2 + 1)))
    || (decide (p.2 = q.2)
        && (decide (q.1 = p.1 + 1) || decide (p.1 = q.1 + 1)))

/-- One step of 4-connectivity inside the black mask: adjacent positions that
are both foreground cells. -/
def blackStep (buf : List Nat) (w h : Nat) (p q : Pos) : Prop :=
  adj4 p q = true ∧ blackCell buf w h p = true ∧ blackCell buf w h q = true

/-- One round of flood expansion: add every foreground cell 4-adjacent to the
current set. -/
def expand (buf : List Nat) (w h : Nat) (S : Finset Pos) : Finset Pos :=
  S ∪ (cells w h).filter
    (fun q => blackCell buf w h q = true ∧ ∃ p ∈ S, adj4 p q = true)

/-- The connected component of `c` in the black mask, computed by `w * h`
rounds of expansion (enough to reach the fixpoint). -/
def reachSet (buf : List Nat) (w h : Nat) (c : Pos) : Finset Pos :=
  (expand buf w h)^[w * h] {c}

/-- Linear index of a position (`y * width + x`). -/
def posIdx (w : Nat) (p : Pos) : Nat := p.2 * w + p.1

/-- Modelled from the spec: the component label a pixel receives from the
external `imageproc::connected_components` 4-connectivity flood-labeling pass
(`0` for background; equal nonzero labels exactly on 4-connected foreground
regions). Here the label of a foreground pixel is one plus the least linear
index in its component, which realises the spec's labeling contract. -/
def labelOf (buf : List Nat) (w h : Nat) (p : Pos) : Nat :=
  if blackCell buf w h p then
    1 + ((reachSet buf w h p).image (posIdx w)).min.untop' 0
  else 0

/-- The four corner positions probed by `remove_background`. -/
def cornerList (w h : Nat) : List Pos :=
  [(0, 0), (w - 1, 0), (0, h - 1), (w - 1, h - 1)]

/-- The corner-label collection loop of `remove_background`: gather distinct
nonzero corner labels into an at-most-4-slot buffer. -/
def collectTargets (buf : List Nat) (w h : Nat) : List Nat :=
  (cornerList w h).foldl
    (fun acc c =>
      let l := labelOf buf w h c
      if l = 0 ∨ l ∈ acc ∨ 4 ≤ acc.length then acc else acc ++ [l])
    []

/-- The pixel position a byte index belongs to. -/
def pixOfByte (w : Nat) (i : Nat) : Pos := (i / 4 % w, i / 4 / w)

/-- `remove_background`: zero the RGBA bytes of every pixel whose label is a
collected corner label; all other bytes are kept (a write happens only when
the 4-byte slice is in range, matching `get_mut(base..base + 4)`). -/
def remove_background (buf : List Nat) (w h : Nat) : List Nat :=
  let targets := collectTargets buf w h
  buf.mapIdx (fun i b =>
    let p := pixOfByte w i
    let l := labelOf buf w h p
    if l ≠ 0 ∧ l ∈ targets ∧ 4 * (i / 4) + 4 ≤ buf.length then 0 else b)

/-- A pixel belongs to a 4-connected region of pure black pixels containing
one of the four image corners. -/
def inCornerRegion (buf : List Nat) (w h : Nat) (p : Pos) : Prop :=
  ∃ c ∈ cornerList w h, blackCell buf w h c = true ∧
    Relation.ReflTransGen (blackStep buf w h) c p

/-! ## Decode cache (`src/media/image.rs`) -/

/-- Decode variants (`DecodeVariant`). -/
inductive DecodeVariant where
  | Raw
  | RemoveBackground
deriving DecidableEq, Repr

/-- Renderer-side BGA layers (`loops::BgaLayer`). -/
inductive BgaLayer where
  | Bga
  | Layer
  | Layer2
  | Poor
deriving DecidableEq, Repr

/-- `layer_to_variant`: overlay layers get the background-removed variant,
base and poor layers the raw one. -/
def layer_to_variant : BgaLayer → DecodeVariant
  | BgaLayer.Layer | BgaLayer.Layer2 => DecodeVariant.RemoveBackground
  | BgaLayer.Bga | BgaLayer.Poor => DecodeVariant.Raw

/-- A decoded image (`DecodedImage`): RGBA bytes plus dimensions. -/
structure DecodedImage where
  rgba : List Nat
  width : Nat
  height : Nat
deriving DecidableEq, Repr

/-- The decode cache content (`BgaDecodeCache`): a map from
(path, variant) keys to decoded images. -/
abbrev BgaCache := List ((String × DecodeVariant) × DecodedImage)

/-- `preprocess_rgba`: apply background removal for the `RemoveBackground`
variant of a non-degenerate image, otherwise keep the bytes. -/
def preprocess_rgba (rgba : List Nat) (w h : Nat) (variant : DecodeVariant) :
    List Nat :=
  if variant = DecodeVariant.RemoveBackground ∧ w ≠ 0 ∧ h ≠ 0 then
    remove_background rgba w h
  else rgba

/-- The `RemoveBackground` cache entry derived from a raw entry. -/
def processedOf (raw : DecodedImage) : DecodedImage :=
  { rgba := preprocess_rgba raw.rgba raw.width raw.height
      DecodeVariant.RemoveBackground
    width := raw.width
    height := raw.height }

/-- Outcome of a `decode_and_cache` call: the returned entry, the cache
afterwards, and how many disk decodes (`decode_image_async` invocations)
were triggered. -/
structure DecodeOutcome where
  result : Option DecodedImage
  cache : BgaCache
  decodes : Nat
deriving Repr

/-- `decode_and_cache`: serve the wanted variant from cache, else derive
`RemoveBackground` from a cached raw entry, else decode from disk once and
populate both variants. `disk` is the result of `decode_image_async`. -/
def decode_and_cache (disk : String → Option DecodedImage) (cache : BgaCache)
    (layer : BgaLayer) (path : String) : DecodeOutcome :=
  let want := layer_to_variant layer
  match alookup cache (path, want) with
  | some d => { result := some d, cache := cache, decodes := 0 }
  | none =>
      let derived : Option DecodeOutcome :=
        if want = DecodeVariant.RemoveBackground then
          match alookup cache (path, DecodeVariant.Raw) with
          | some raw =>
              some { result := some (processedOf raw)
                     cache := ainsert cache (path, want) (processedOf raw)
                     decodes := 0 }
          | none => none
        else none
      match derived with
      | some out => out
      | none =>
          match disk path with
          | none => { result := none, cache := cache, decodes := 1 }
          | some img =>
              let cache1 := ainsert cache (path, DecodeVariant.Raw) img
              let cache2 :=
                ainsert cache1 (path, DecodeVariant.RemoveBackground)
                  (processedOf img)
              { result := some (match want with
                  | DecodeVariant.Raw => img
                  | DecodeVariant.RemoveBackground => processedOf img)
                cache := cache2
                decodes := 1 }

/-! ## Audio preload loop (`src/loops/audio.rs`)

The worker pool is embedded sequentially: the observable outcome of one
`PreloadAll` request is the per-file decode results (in file order), the
final progress counter, the cache insertions, and the completion events
sent on the ready channel. -/

/-- A decoded audio sample buffer (`rodio::SamplesBuffer`), reduced to its
sample list. -/
abbrev SampleBuf := List Int

/-- Events on the ready channel (`loops/audio.rs::Event`). -/
inductive AudioEvent where
  | PreloadFinished
deriving DecidableEq, Repr

/-- The audio-loop cache (`Audio::decoded`): path to decoded buffer. -/
structure AudioState where
  decoded : List (String × SampleBuf)
deriving Repr

/-- Handling of one `PreloadAll` request: each file is read and decoded
(`audioDisk p = none` models `fs::read` or `decode_bytes` failing); every
file bumps the progress counter, only successes are inserted into the cache,
and exactly one `PreloadFinished` is sent afterwards. -/
def processPreloadAll (audioDisk : String → Option SampleBuf)
    (a : AudioState) (files : List String) :
    AudioState × List AudioEvent × Nat :=
  let results := files.map (fun p => (p, audioDisk p))
  let decoded' := results.foldl
    (fun d r =>
      match r.2 with
      | some buf => ainsert d r.1 buf
      | none => d)
    a.decoded
  ({ decoded := decoded' }, [AudioEvent.PreloadFinished], files.length)

/-- `Audio::cached_buffer` followed by playback: serve from cache, else read
and decode, caching on success; failures are dropped. -/
def processPlay (audioDisk : String → Option SampleBuf) (a : AudioState)
    (path : String) : AudioState :=
  match alookup a.decoded path with
  | some _ => a
  | none =>
      match audioDisk path with
      | some buf => { decoded := ainsert a.decoded path buf }
      | none => a

/-- One message-handling step of `run_audio_loop`. -/
def audioStep (audioDisk : String → Option SampleBuf) (a : AudioState) :
    AudioMsg → AudioState × List AudioEvent
  | AudioMsg.PreloadAll files =>
      let (a', evs, _) := processPreloadAll audioDisk a files
      (a', evs)
  | AudioMsg.Play p => (processPlay audioDisk a p, [])

/-- `run_audio_loop` over a finite message sequence, collecting every event
sent on the ready channel. -/
def runAudioLoop (audioDisk : String → Option SampleBuf) (a : AudioState) :
    List AudioMsg → AudioState × List AudioEvent
  | [] => (a, [])
  | msg :: rest =>
      let (a', evs) := audioStep audioDisk a msg
      let (a'', evs') := runAudioLoop audioDisk a' rest
      (a'', evs ++ evs')

/-- Whether a message is a `PreloadAll` request. -/
def isPreloadAll : AudioMsg → Bool
  | AudioMsg.PreloadAll _ => true
  | AudioMsg.Play _ => false

/-! ## Example judgment parameters

The worked example of the spec: judgment windows 16 ms / 36 ms / 80 ms /
120 ms and a 600 ms visible window, in nanoseconds. -/

/-- The example judgment parameters of the spec. -/
def exampleJudgeParams : JudgeParams :=
  { travel := 600000000
    windows := fun i => [16000000, 36000000, 80000000, 120000000].getD i.val 0 }

/-- Timing-error computation at ratio `0.02`: `⌊600 ms × 0.02⌋ = 12 ms`. -/
lemma errNanos_002 : errNanos 600000000 (2 / 100) = 12000000 := by
  unfold errNanos
  rw [max_eq_left (by norm_num)]
  norm_num
  rfl

/-- Timing-error computation at ratio `0.15`: `⌊600 ms × 0.15⌋ = 90 ms`. -/
lemma errNanos_015 : errNanos 600000000 (15 / 100) = 90000000 := by
  unfold errNanos
  rw [max_eq_left (by norm_num)]
  norm_num
  rfl

/-! ## Selection-function lemmas (for C1) -/

/-- Reference selection: the first candidate in list order whose ratio is
minimal among all candidates. -/
def pickFirstMin (idx : Nat) : List VisibleEntry → Option VisibleEntry
  | [] => none
  | e :: rest =>
      if isCandidate idx e then
        match pickFirstMin idx rest with
        | some b => if b.2 < e.2 then some b else some e
        | none => some e
      else pickFirstMin idx rest

/-- Merge an accumulator with a selection result, preferring the accumulator
on ties (the accumulator was seen earlier). -/
def mergeBest (best r : Option VisibleEntry) : Option VisibleEntry :=
  match best, r with
  | none, r => r
  | some a, none => some a
  | some a, some b => if b.2 < a.2 then some b else some a

lemma findBestAux_eq_merge (idx : Nat) :
    ∀ (l : List VisibleEntry) (best : Option VisibleEntry),
      findBestAux idx best l = mergeBest best (pickFirstMin idx l) := by
  intro l
  induction l with
  | nil => intro best; cases best <;> simp [findBestAux, pickFirstMin, mergeBest]
  | cons e rest ih =>
      intro best
      by_cases hc : isCandidate idx e
      · cases best with
        | none =>
            simp only [findBestAux, hc, if_pos, pickFirstMin]
            rw [ih (some e)]
            cases hr : pickFirstMin idx rest with
            | none => simp [mergeBest]
            | some b => by_cases hbe : b.2 < e.2 <;> simp [mergeBest, hbe]
        | some a =>
            simp only [findBestAux, hc, if_pos, pickFirstMin]
            by_cases hea : e.2 < a.2
            · rw [if_pos hea, ih (some e)]
              cases hr : pickFirstMin idx rest with
              | none => simp [mergeBest, hea]
              | some b =>
                  by_cases hbe : b.2 < e.2
                  · have hba : b.2 < a.2 := lt_trans hbe hea
                    simp [mergeBest, hbe, hba]
                  · simp [mergeBest, hbe, hea]
            · rw [if_neg hea, ih (some a)]
              cases hr : pickFirstMin idx rest with
              | none => simp [mergeBest, hea]
              | some b =>
                  by_cases hbe : b.2 < e.2
                  · simp [mergeBest, hbe]
                  · have hba : ¬ b.2 < a.2 := by
                      intro h
                      exact hea (lt_of_le_of_lt (le_of_not_lt hbe) h)
                    simp [mergeBest, hbe, hea, hba]
      · simp only [findBestAux, hc, if_neg, pickFirstMin, Bool.false_eq_true,
          if_false]
        exact ih best

/-- `findBest` computes the reference selection. -/
lemma findBest_eq_pickFirstMin (idx : Nat) (l : List VisibleEntry) :
    findBest idx l = pickFirstMin idx l := by
  rw [findBest, findBestAux_eq_merge]
  cases pickFirstMin idx l <;> rfl

lemma pickFirstMin_eq_none_iff (idx : Nat) (l : List VisibleEntry) :
    pickFirstMin idx l = none ↔ ∀ e ∈ l, isCandidate idx e = false := by
  induction l with
  | nil => simp [pickFirstMin]
  | cons e rest ih =>
      by_cases hc : isCandidate idx e
      · simp only [pickFirstMin, hc, if_pos]
        constructor
        · intro h
          cases hr : pickFirstMin idx rest with
          | none => simp [hr] at h
          | some b => simp [hr] at h; split at h <;> simp_all
        · intro h
          have := h e (by simp)
          simp [hc] at this
      · simp only [pickFirstMin, hc, Bool.false_eq_true, if_false]
        rw [ih]
        constructor
        · intro h
          intro x hx
          rcases List.mem_cons.mp hx with rfl | hx'
          · exact Bool.eq_false_iff.mpr hc
          · exact h x hx'
        · intro h x hx
          exact h x (List.mem_cons_of_mem _ hx)

lemma pickFirstMin_mem (idx : Nat) :
    ∀ (l : List VisibleEntry) (b : VisibleEntry),
      pickFirstMin idx l = some b → b ∈ l ∧ isCandidate idx b = true := by
  intro l
  induction l with
  | nil => intro b h; simp [pickFirstMin] at h
  | cons e rest ih =>
      intro b h
      by_cases hc : isCandidate idx e
      · simp only [pickFirstMin, hc, if_pos] at h
        cases hr : pickFirstMin idx rest with
        | none => simp [hr] at h; exact ⟨by simp [← h], by simp [← h, hc]⟩
        | some b' =>
            simp only [hr] at h
            split at h
            · obtain ⟨hb, hcb⟩ := ih b (h ▸ hr)
              exact ⟨List.mem_cons_of_mem _ hb, hcb⟩
            · cases h
              exact ⟨by simp, hc⟩
      · simp only [pickFirstMin, hc, Bool.false_eq_true, if_false] at h
        obtain ⟨hb, hcb⟩ := ih b h
        exact ⟨List.mem_cons_of_mem _ hb, hcb⟩

lemma pickFirstMin_min (idx : Nat) :
    ∀ (l : List VisibleEntry) (b : VisibleEntry),
      pickFirstMin idx l = some b →
      ∀ e ∈ l, isCandidate idx e = true → b.2 ≤ e.2 := by
  intro l
  induction l with
  | nil => intro b h; simp [pickFirstMin] at h
  | cons e rest ih =>
      intro b h x hx hcx
      by_cases hc : isCandidate idx e
      · simp only [pickFirstMin, hc, if_pos] at h
        cases hr : pickFirstMin idx rest with
        | none =>
            simp only [hr] at h
            cases h
            rcases List.mem_cons.mp hx with rfl | hx'
            · exact le_refl _
            · exact absurd hcx (by
                have := (pickFirstMin_eq_none_iff idx rest).mp hr x hx'
                simp [this])
        | some b' =>
            simp only [hr] at h
            rcases List.mem_cons.mp hx with rfl | hx'
            · split at h
              · cases h; exact le_of_lt (by assumption)
              · cases h; exact le_refl _
            · have hmin := ih b' hr x hx' hcx
              split at h
              · cases h; exact hmin
              · cases h
                exact le_trans (le_of_not_lt (by assumption)) hmin
      · simp only [pickFirstMin, hc, Bool.false_eq_true, if_false] at h
        rcases List.mem_cons.mp hx with rfl | hx'
        · simp [hcx] at hc
        · exact ih b h x hx' hcx

lemma pickFirstMin_first (idx : Nat) :
    ∀ (l : List VisibleEntry) (b : VisibleEntry),
      pickFirstMin idx l = some b →
      ∃ l₁ l₂, l = l₁ ++ b :: l₂ ∧
        ∀ e ∈ l₁, isCandidate idx e = true → b.2 < e.2 := by
  intro l
  induction l with
  | nil => intro b h; simp [pickFirstMin] at h
  | cons e rest ih =>
      intro b h
      by_cases hc : isCandidate idx e
      · simp only [pickFirstMin, hc, if_pos] at h
        cases hr : pickFirstMin idx rest with
        | none =>
            simp only [hr] at h
            cases h
            exact ⟨[], rest, rfl, by simp⟩
        | some b' =>
            simp only [hr] at h
            split at h
            · cases h
              obtain ⟨l₁, l₂, hsplit, hpre⟩ := ih b hr
              refine ⟨e :: l₁, l₂, by simp [hsplit], ?_⟩
              intro x hx hcx
              rcases List.mem_cons.mp hx with rfl | hx'
              · assumption
              · exact hpre x hx' hcx
            · cases h
              exact ⟨[], rest, rfl, by simp⟩
      · simp only [pickFirstMin, hc, Bool.false_eq_true, if_false] at h
        obtain ⟨l₁, l₂, hsplit, hpre⟩ := ih b h
        refine ⟨e :: l₁, l₂, by simp [hsplit], ?_⟩
        intro x hx hcx
        rcases List.mem_cons.mp hx with rfl | hx'
        · simp [hcx] at hc
        · exact hpre x hx' hcx

/-! # Claim theorems -/

/-- Reduction of `onKeyDown` when no candidate is selected. -/
lemma onKeyDown_none (jp : JudgeParams) (ap : Nat → Option String)
    (visible : List VisibleEntry) (idx : Nat) (st : GameState)
    (h : findBest idx visible = none) :
    onKeyDown jp ap visible idx st =
      { state := { st with pressed := st.pressed.set idx true }
        audioOut := [], visualOut := [], consumed := true } := by
  simp [onKeyDown, h]

/-- Reduction of `onKeyDown` when a candidate is selected. -/
lemma onKeyDown_some (jp : JudgeParams) (ap : Nat → Option String)
    (visible : List VisibleEntry) (idx : Nat) (st : GameState)
    (ev : PlayheadEvent) (r : ℚ) (h : findBest idx visible = some (ev, r)) :
    (onKeyDown jp ap visible idx st).state =
      (applyJudge ap { st with pressed := st.pressed.set idx true }
        (judgeLevel jp (errNanos jp.travel r)) ev).1 := by
  simp only [onKeyDown, h]

/-- The combo update of `applyJudge` on grades 2, 3, 4 is a saturating
increment. -/
lemma applyJudge_combo_succ (ap : Nat → Option String) (st : GameState)
    (level : Nat) (ev : PlayheadEvent)
    (h : level = 2 ∨ level = 3 ∨ level = 4) :
    (applyJudge ap st level ev).1.combo = satAdd1 st.combo := by
  rcases h with rfl | rfl | rfl <;> simp [applyJudge]

/-- The combo update of `applyJudge` on grades 0 and 1 is a reset to zero. -/
lemma applyJudge_combo_zero (ap : Nat → Option String) (st : GameState)
    (level : Nat) (ev : PlayheadEvent) (h : level = 0 ∨ level = 1) :
    (applyJudge ap st level ev).1.combo = 0 := by
  rcases h with rfl | rfl <;> simp [applyJudge]

/-- C1: on a key-down on lane `idx`, if any visible entry is a candidate
(a Player-1 note mapped to that lane with ratio in `[0, 1]`), the selection
returns a candidate of minimal ratio and, among equal minima, the first in
iteration order; if no entry is a candidate, the key-down leaves combo and
gauge unchanged, sends no judgment message, and reports the input as
consumed. -/
theorem c1_judgment_selection :
    (∀ (visible : List VisibleEntry) (idx : Nat) (e : VisibleEntry),
        e ∈ visible → isCandidate idx e = true →
        ∃ b, findBest idx visible = some b ∧ b ∈ visible ∧
          isCandidate idx b = true ∧
          (∀ x ∈ visible, isCandidate idx x = true → b.2 ≤ x.2) ∧
          ∃ l₁ l₂, visible = l₁ ++ b :: l₂ ∧
            ∀ x ∈ l₁, isCandidate idx x = true → b.2 < x.2) ∧
    (∀ (jp : JudgeParams) (ap : Nat → Option String)
        (visible : List VisibleEntry) (idx : Nat) (st : GameState),
        (∀ e ∈ visible, isCandidate idx e = false) →
        (onKeyDown jp ap visible idx st).state.combo = st.combo ∧
        (onKeyDown jp ap visible idx st).state.gauge = st.gauge ∧
        (onKeyDown jp ap visible idx st).audioOut = [] ∧
        (onKeyDown jp ap visible idx st).visualOut = [] ∧
        (onKeyDown jp ap visible idx st).consumed = true) := by
  constructor
  · intro visible idx e he hce
    rw [findBest_eq_pickFirstMin]
    cases hp : pickFirstMin idx visible with
    | none =>
        have := (pickFirstMin_eq_none_iff idx visible).mp hp e he
        simp [hce] at this
    | some b =>
        obtain ⟨hmem, hcb⟩ := pickFirstMin_mem idx visible b hp
        exact ⟨b, rfl, hmem, hcb, pickFirstMin_min idx visible b hp,
          pickFirstMin_first idx visible b hp⟩
  · intro jp ap visible idx st h
    have hnone : findBest idx visible = none := by
      rw [findBest_eq_pickFirstMin]
      exact (pickFirstMin_eq_none_iff idx visible).mpr h
    rw [onKeyDown_none jp ap visible idx st hnone]
    exact ⟨rfl, rfl, rfl, rfl, rfl⟩

/-- A concrete visible note: a Player-1 note on key 1 (lane 1) at ratio 0. -/
def witnessNote : VisibleEntry :=
  ({ evId := 0, event := ChartEv.note PlayerSide.Player1 (BmsKey.key 1) none },
    0)

lemma witnessNote_isCandidate : isCandidate 1 witnessNote = true := by
  simp [isCandidate, witnessNote, key_to_lane]

/-- Witness for C1: both parts applied at concrete inputs — a singleton
candidate list on lane 1, and an empty visible list. -/
theorem c1_judgment_selection_witness :
    (∃ b, findBest 1 [witnessNote] = some b ∧ b ∈ [witnessNote] ∧
      isCandidate 1 b = true ∧
      (∀ x ∈ [witnessNote], isCandidate 1 x = true → b.2 ≤ x.2) ∧
      ∃ l₁ l₂, [witnessNote] = l₁ ++ b :: l₂ ∧
        ∀ x ∈ l₁, isCandidate 1 x = true → b.2 < x.2) ∧
    ((onKeyDown exampleJudgeParams (fun _ => none) [] 1
        initialGameState).state.combo = initialGameState.combo ∧
      (onKeyDown exampleJudgeParams (fun _ => none) [] 1
        initialGameState).state.gauge = initialGameState.gauge ∧
      (onKeyDown exampleJudgeParams (fun _ => none) [] 1
        initialGameState).audioOut = [] ∧
      (onKeyDown exampleJudgeParams (fun _ => none) [] 1
        initialGameState).visualOut = [] ∧
      (onKeyDown exampleJudgeParams (fun _ => none) [] 1
        initialGameState).consumed = true) :=
  ⟨c1_judgment_selection.1 [witnessNote] 1 witnessNote (by simp)
      witnessNote_isCandidate,
    c1_judgment_selection.2 exampleJudgeParams (fun _ => none) [] 1
      initialGameState (by simp)⟩

/-- C10: a newly constructed Game page starts with all 8 pressed flags
false, combo 0, and gauge exactly 1/2 — half, neither empty nor full. -/
theorem c10_initial_game_state :
    initialGameState.pressed = List.replicate 8 false ∧
    initialGameState.pressed.length = 8 ∧
    (∀ b ∈ initialGameState.pressed, b = false) ∧
    initialGameState.combo = 0 ∧
    initialGameState.gauge = 1 / 2 ∧
    initialGameState.gauge ≠ 0 ∧ initialGameState.gauge ≠ 1 := by
  refine ⟨rfl, rfl, ?_, rfl, rfl, by norm_num [initialGameState], by norm_num [initialGameState]⟩
  intro b hb
  simpa [initialGameState] using (List.eq_of_mem_replicate hb)

/-- C2 (counterexample): with the example parameters, a ratio of `0.15`
yields an error of 90 ms, which the grading chain classifies as grade 1,
not grade 2 as the claim states (90 ms exceeds the third window, 80 ms). -/
theorem c2_grade_at_ratio_015_ne_2 :
    errNanos exampleJudgeParams.travel (15 / 100) = 90000000 ∧
    judgeLevel exampleJudgeParams
      (errNanos exampleJudgeParams.travel (15 / 100)) ≠ 2 := by
  have h : errNanos exampleJudgeParams.travel (15 / 100) = 90000000 :=
    errNanos_015
  exact ⟨h, by rw [h]; decide⟩

/-- C2 (amended): with judgment windows 16/36/80/120 ms and a 600 ms visible
window, ratio `0.02` gives error 12 ms and grade 4, and ratio `0.15` gives
error 90 ms and grade 1. -/
theorem c2_example_grades :
    errNanos exampleJudgeParams.travel (2 / 100) = 12000000 ∧
    judgeLevel exampleJudgeParams
      (errNanos exampleJudgeParams.travel (2 / 100)) = 4 ∧
    errNanos exampleJudgeParams.travel (15 / 100) = 90000000 ∧
    judgeLevel exampleJudgeParams
      (errNanos exampleJudgeParams.travel (15 / 100)) = 1 := by
  have h2 : errNanos exampleJudgeParams.travel (2 / 100) = 12000000 :=
    errNanos_002
  have h15 : errNanos exampleJudgeParams.travel (15 / 100) = 90000000 :=
    errNanos_015
  exact ⟨h2, by rw [h2]; decide, h15, by rw [h15]; decide⟩

/-- The timing error at ratio 0 is 0. -/
lemma errNanos_zero (travel : Nat) : errNanos travel 0 = 0 := by
  simp [errNanos]

/-- C5 (amended): after a judged key-down, the combo is reset to exactly 0 on
grade 0 or 1, and on grade 2, 3 or 4 it is incremented saturatingly: by
exactly 1 whenever the previous combo is below `u32::MAX`, and left at
`u32::MAX` at the saturation bound. -/
theorem c5_combo_update :
    ∀ (jp : JudgeParams) (ap : Nat → Option String)
      (visible : List VisibleEntry) (idx : Nat) (st : GameState)
      (ev : PlayheadEvent) (r : ℚ),
      findBest idx visible = some (ev, r) →
      ((judgeLevel jp (errNanos jp.travel r) = 0 ∨
          judgeLevel jp (errNanos jp.travel r) = 1) →
        (onKeyDown jp ap visible idx st).state.combo = 0) ∧
      ((judgeLevel jp (errNanos jp.travel r) = 2 ∨
          judgeLevel jp (errNanos jp.travel r) = 3 ∨
          judgeLevel jp (errNanos jp.travel r) = 4) →
        (onKeyDown jp ap visible idx st).state.combo = satAdd1 st.combo ∧
        (st.combo < u32Max →
          (onKeyDown jp ap visible idx st).state.combo = st.combo + 1) ∧
        (st.combo = u32Max →
          (onKeyDown jp ap visible idx st).state.combo = u32Max)) := by
  intro jp ap visible idx st ev r h
  rw [onKeyDown_some jp ap visible idx st ev r h]
  constructor
  · intro hlvl
    exact applyJudge_combo_zero ap _ _ ev hlvl
  · intro hlvl
    have hsucc := applyJudge_combo_succ ap
      { st with pressed := st.pressed.set idx true } _ ev hlvl
    refine ⟨hsucc, ?_, ?_⟩
    · intro hlt
      rw [hsucc]
      show satAdd1 st.combo = st.combo + 1
      unfold satAdd1
      omega
    · intro heq
      rw [hsucc]
      show satAdd1 st.combo = u32Max
      unfold satAdd1
      omega

/-- Selection on the singleton witness list. -/
lemma findBest_witnessNote :
    findBest 1 [witnessNote] = some (witnessNote.1, witnessNote.2) := by
  rw [findBest_eq_pickFirstMin]
  simp [pickFirstMin, witnessNote_isCandidate]

/-- The game state used by the C5 counterexample: combo already at
`u32::MAX`. -/
def comboCapState : GameState :=
  { pressed := List.replicate 8 false, gauge := 1 / 2, combo := u32Max }

/-- C5 (counterexample): a judged key-down of grade 4 on a state whose combo
is `u32::MAX` leaves the combo at `u32::MAX` — not incremented by exactly 1,
because the code uses `saturating_add`. -/
theorem c5_counterexample_saturation :
    judgeLevel exampleJudgeParams
      (errNanos exampleJudgeParams.travel witnessNote.2) = 4 ∧
    comboCapState.combo = u32Max ∧
    (onKeyDown exampleJudgeParams (fun _ => none) [witnessNote] 1
      comboCapState).state.combo = u32Max ∧
    u32Max ≠ u32Max + 1 := by
  have hlvl : judgeLevel exampleJudgeParams
      (errNanos exampleJudgeParams.travel witnessNote.2) = 4 := by
    have h0 : errNanos exampleJudgeParams.travel witnessNote.2 = 0 :=
      errNanos_zero _
    rw [h0]; decide
  refine ⟨hlvl, rfl, ?_, by omega⟩
  rw [onKeyDown_some exampleJudgeParams (fun _ => none) [witnessNote] 1
    comboCapState witnessNote.1 witnessNote.2 findBest_witnessNote]
  rw [applyJudge_combo_succ _ _ _ _ (Or.inr (Or.inr hlvl))]
  show satAdd1 comboCapState.combo = u32Max
  unfold satAdd1 comboCapState
  simp

/-- Witness for C5: a grade-4 judged key-down from combo 0 yields combo 1. -/
theorem c5_combo_update_witness :
    (onKeyDown exampleJudgeParams (fun _ => none) [witnessNote] 1
      initialGameState).state.combo = initialGameState.combo + 1 := by
  have hlvl : judgeLevel exampleJudgeParams
      (errNanos exampleJudgeParams.travel witnessNote.2) = 4 := by
    have h0 : errNanos exampleJudgeParams.travel witnessNote.2 = 0 :=
      errNanos_zero _
    rw [h0]; decide
  exact ((c5_combo_update exampleJudgeParams (fun _ => none) [witnessNote] 1
    initialGameState witnessNote.1 witnessNote.2
    findBest_witnessNote).2 (Or.inr (Or.inr hlvl))).2.1 (by
      show initialGameState.combo < u32Max
      unfold initialGameState u32Max
      norm_num)

/-- Every branch of `applyJudge` clamps the gauge to `[0, 1]`. -/
lemma applyJudge_gauge_bounds (ap : Nat → Option String) (st : GameState)
    (level : Nat) (ev : PlayheadEvent) (h0 : 0 ≤ st.gauge)
    (h1 : st.gauge ≤ 1) :
    0 ≤ (applyJudge ap st level ev).1.gauge ∧
      (applyJudge ap st level ev).1.gauge ≤ 1 := by
  unfold applyJudge
  split_ifs <;> constructor <;> simp only
  · exact le_min (by linarith) (by norm_num)
  · exact min_le_right _ _
  · exact le_min (by linarith) (by norm_num)
  · exact min_le_right _ _
  · exact le_max_right _ _
  · exact max_le (by linarith) (by norm_num)
  · exact le_max_right _ _
  · exact max_le (by linarith) (by norm_num)

/-- One input step preserves the gauge bounds. -/
lemma inputStep_gauge_bounds (jp : JudgeParams) (ap : Nat → Option String)
    (st : GameState) (x : InputMsg × List VisibleEntry) (h0 : 0 ≤ st.gauge)
    (h1 : st.gauge ≤ 1) :
    0 ≤ (inputStep jp ap st x).gauge ∧ (inputStep jp ap st x).gauge ≤ 1 := by
  obtain ⟨msg, visible⟩ := x
  cases msg with
  | KeyDown idx =>
      have hstep : inputStep jp ap st (InputMsg.KeyDown idx, visible) =
          (onKeyDown jp ap visible idx st).state := rfl
      rw [hstep]
      cases hfb : findBest idx visible with
      | none => rw [onKeyDown_none jp ap visible idx st hfb]; exact ⟨h0, h1⟩
      | some br =>
          have hfb' : findBest idx visible = some (br.1, br.2) := hfb
          rw [onKeyDown_some jp ap visible idx st br.1 br.2 hfb']
          exact applyJudge_gauge_bounds ap _ _ _ h0 h1
  | KeyUp idx => exact ⟨h0, h1⟩

/-- C6: from a freshly created Game page, the health gauge stays in `[0, 1]`
after any sequence of input steps — each raise is capped at 1 and each
penalty floored at 0. -/
theorem c6_gauge_clamped (jp : JudgeParams) (ap : Nat → Option String)
    (steps : List (InputMsg × List VisibleEntry)) :
    0 ≤ (runInputs jp ap initialGameState steps).gauge ∧
      (runInputs jp ap initialGameState steps).gauge ≤ 1 := by
  have main : ∀ (steps : List (InputMsg × List VisibleEntry)) (st : GameState),
      0 ≤ st.gauge → st.gauge ≤ 1 →
      0 ≤ (runInputs jp ap st steps).gauge ∧
        (runInputs jp ap st steps).gauge ≤ 1 := by
    intro steps
    induction steps with
    | nil => intro st h0 h1; exact ⟨h0, h1⟩
    | cons x rest ih =>
        intro st h0 h1
        have hx := inputStep_gauge_bounds jp ap st x h0 h1
        exact ih (inputStep jp ap st x) hx.1 hx.2
  exact main steps initialGameState (by norm_num [initialGameState])
    (by norm_num [initialGameState])

/-! ## Page-manager lemmas (for C3 and C4) -/

lemma alookup_ainsert_self {κ α : Type} [DecidableEq κ]
    (l : List (κ × α)) (id : κ) (v : α) :
    alookup (ainsert l id v) id = some v := by
  simp [alookup, ainsert, List.find?]

lemma alookup_cons_ne {κ α : Type} [DecidableEq κ]
    (l : List (κ × α)) (k id' : κ) (v : α) (h : k ≠ id') :
    alookup ((k, v) :: l) id' = alookup l id' := by
  simp [alookup, List.find?_cons, h]

lemma alookup_aerase_ne {κ α : Type} [DecidableEq κ]
    (l : List (κ × α)) (id id' : κ) (h : id' ≠ id) :
    alookup (aerase l id) id' = alookup l id' := by
  induction l with
  | nil => rfl
  | cons e rest ih =>
      by_cases he : e.1 = id
      · have hne : e.1 ≠ id' := by rw [he]; exact fun hx => h hx.symm
        simpa [alookup, aerase, he, hne, Ne.symm h] using ih
      · by_cases he' : e.1 = id'
        · simp [alookup, aerase, he, he', h]
        · simpa [alookup, aerase, he, he'] using ih

lemma alookup_ainsert_ne {κ α : Type} [DecidableEq κ]
    (l : List (κ × α)) (id id' : κ) (v : α) (h : id' ≠ id) :
    alookup (ainsert l id v) id' = alookup l id' := by
  unfold ainsert
  rw [alookup_cons_ne _ _ _ _ (fun hx => h hx.symm)]
  exact alookup_aerase_ne l id id' h

/-- `handle_page_leave` emits only `leave` and `cleanup` hooks. -/
lemma handle_page_leave_no_enter (m : PageManager) (c : PageId) :
    ∀ x ∈ handle_page_leave m c, x.2 ≠ HookEv.enter := by
  intro x hx
  unfold handle_page_leave at hx
  split at hx
  · rcases List.mem_cons.mp hx with rfl | hx'
    · simp
    · split at hx'
      · simp at hx'
      · rcases List.mem_singleton.mp hx' with rfl
        simp
  · simp at hx

/-- `currentLeaveTrace` emits only `leave` and `cleanup` hooks. -/
lemma currentLeaveTrace_no_enter (m : PageManager) :
    ∀ x ∈ currentLeaveTrace m, x.2 ≠ HookEv.enter := by
  unfold currentLeaveTrace
  cases m.current_page_id with
  | none => intro x hx; simp at hx
  | some cid => exact handle_page_leave_no_enter m cid

/-- `switch_to` on a cache-enabled page with a cached instance: re-enter the
cached instance. -/
lemma switch_to_eq_cached (m : PageManager) (id : PageId)
    (inst : PageInstance)
    (hcfg : (get_page_config m id).cache_enabled = true)
    (hcache : alookup m.cached_pages id = some inst) :
    switch_to m id =
      { mgr := { m with current_page_id := some id }
        trace := currentLeaveTrace m ++ [(id, HookEv.enter)]
        ok := true } := by
  simp [switch_to, hcfg, hcache]

/-- `switch_to` on a cache-enabled page with no cached instance and a
registered builder: build, init and enter a fresh instance. -/
lemma switch_to_eq_build (m : PageManager) (id : PageId)
    (hcfg : (get_page_config m id).cache_enabled = true)
    (hcache : alookup m.cached_pages id = none) (hb : id ∈ m.builders) :
    switch_to m id =
      { mgr := { m with
          cached_pages :=
            ainsert m.cached_pages id { pid := id, gen := m.nextGen }
          current_page_id := some id
          nextGen := m.nextGen + 1 }
        trace := currentLeaveTrace m
          ++ [(id, HookEv.hookInit), (id, HookEv.enter)]
        ok := true } := by
  simp [switch_to, hcfg, hcache, create_page, hb]

/-- `switch_to` on a cache-enabled page with no cached instance and no
builder: the transition fails after the leave hooks. -/
lemma switch_to_eq_build_fail (m : PageManager) (id : PageId)
    (hcfg : (get_page_config m id).cache_enabled = true)
    (hcache : alookup m.cached_pages id = none) (hb : id ∉ m.builders) :
    switch_to m id =
      { mgr := m, trace := currentLeaveTrace m, ok := false } := by
  simp [switch_to, hcfg, hcache, create_page, hb]

/-- `switch_to` on a non-cached page with a registered builder: drop and
clean any stale instance, then build, init and enter a fresh one. -/
lemma switch_to_eq_nocache (m : PageManager) (id : PageId)
    (hcfg : (get_page_config m id).cache_enabled = false)
    (hb : id ∈ m.builders) :
    switch_to m id =
      { mgr := { m with
          cached_pages :=
            ainsert (aerase m.cached_pages id) id
              { pid := id, gen := m.nextGen }
          current_page_id := some id
          nextGen := m.nextGen + 1 }
        trace := currentLeaveTrace m
          ++ (if (alookup m.cached_pages id).isSome then
                [(id, HookEv.cleanup)] else [])
          ++ [(id, HookEv.hookInit), (id, HookEv.enter)]
        ok := true } := by
  simp [switch_to, hcfg, create_page, hb, List.append_assoc]

/-- `switch_to` on a non-cached page with no builder: the stale instance is
dropped, then the transition fails. -/
lemma switch_to_eq_nocache_fail (m : PageManager) (id : PageId)
    (hcfg : (get_page_config m id).cache_enabled = false)
    (hb : id ∉ m.builders) :
    switch_to m id =
      { mgr := { m with cached_pages := aerase m.cached_pages id }
        trace := currentLeaveTrace m
          ++ (if (alookup m.cached_pages id).isSome then
                [(id, HookEv.cleanup)] else [])
        ok := false } := by
  simp [switch_to, hcfg, create_page, hb]

/-- `push_page` when a page is current: pause it, stack its id, then
`switch_to`. -/
lemma push_page_eq_some (m : PageManager) (id cid : PageId)
    (hcur : m.current_page_id = some cid) :
    push_page m id =
      { switch_to { m with page_stack := cid :: m.page_stack } id with
        trace := (if (alookup m.cached_pages cid).isSome then
            [(cid, HookEv.pause)] else [])
          ++ (switch_to { m with page_stack := cid :: m.page_stack } id).trace
        } := by
  simp [push_page, hcur]

/-- `pop_page` with a nonempty stack: leave the current page, restore the
stack top, and resume + enter its cached instance. -/
lemma pop_page_eq (m : PageManager) (prev : PageId) (rest : List PageId)
    (hstack : m.page_stack = prev :: rest) :
    pop_page m =
      { mgr := { m with page_stack := rest, current_page_id := some prev }
        trace := currentLeaveTrace m
          ++ (if (alookup m.cached_pages prev).isSome then
                [(prev, HookEv.resume), (prev, HookEv.enter)] else [])
        ok := true } := by
  simp [pop_page, hstack]

/-- Behaviour of `switch_to` towards a registered page id: the transition
succeeds, installs the id as current, leaves the stack, configs, builders and
every other page's cached instance untouched, and fires `enter` only on the
target id. -/
lemma switch_to_registered_spec (m : PageManager) (id : PageId)
    (hb : id ∈ m.builders) :
    (switch_to m id).ok = true ∧
    (switch_to m id).mgr.current_page_id = some id ∧
    (switch_to m id).mgr.page_stack = m.page_stack ∧
    (switch_to m id).mgr.page_configs = m.page_configs ∧
    (switch_to m id).mgr.builders = m.builders ∧
    (∀ b, b ≠ id →
      alookup (switch_to m id).mgr.cached_pages b = alookup m.cached_pages b) ∧
    (∀ x ∈ (switch_to m id).trace, x.2 = HookEv.enter → x.1 = id) := by
  have hleave := currentLeaveTrace_no_enter m
  by_cases hcfg : (get_page_config m id).cache_enabled = true
  · cases hcache : alookup m.cached_pages id with
    | some inst =>
        rw [switch_to_eq_cached m id inst hcfg hcache]
        refine ⟨rfl, rfl, rfl, rfl, rfl, fun b _ => rfl, ?_⟩
        intro x hx hent
        rcases List.mem_append.mp hx with hx' | hx'
        · exact absurd hent (hleave x hx')
        · rcases List.mem_singleton.mp hx' with rfl; rfl
    | none =>
        rw [switch_to_eq_build m id hcfg hcache hb]
        refine ⟨rfl, rfl, rfl, rfl, rfl, ?_, ?_⟩
        · intro b hbne
          exact alookup_ainsert_ne _ _ _ _ hbne
        · intro x hx hent
          rcases List.mem_append.mp hx with hx' | hx'
          · exact absurd hent (hleave x hx')
          · rcases List.mem_cons.mp hx' with rfl | hx''
            · rfl
            · rcases List.mem_singleton.mp hx'' with rfl; rfl
  · rw [switch_to_eq_nocache m id (Bool.not_eq_true _ ▸ hcfg) hb]
    refine ⟨rfl, rfl, rfl, rfl, rfl, ?_, ?_⟩
    · intro b hbne
      rw [alookup_ainsert_ne _ _ _ _ hbne, alookup_aerase_ne _ _ _ hbne]
    · intro x hx hent
      rcases List.mem_append.mp hx with hx' | hx'
      · rcases List.mem_append.mp hx' with hx'' | hx''
        · exact absurd hent (hleave x hx'')
        · split at hx''
          · rcases List.mem_singleton.mp hx'' with rfl
            simp at hent
          · simp at hx''
      · rcases List.mem_cons.mp hx' with rfl | hx''
        · rfl
        · rcases List.mem_singleton.mp hx'' with rfl; rfl

/-- Behaviour of `switch_to` towards an id with no builder and no cached
instance: the transition fails and the current page id and stack are
untouched. -/
lemma switch_to_unregistered_spec (m : PageManager) (id : PageId)
    (hb : id ∉ m.builders) (hc : alookup m.cached_pages id = none) :
    (switch_to m id).ok = false ∧
    (switch_to m id).mgr.current_page_id = m.current_page_id ∧
    (switch_to m id).mgr.page_stack = m.page_stack := by
  by_cases hcfg : (get_page_config m id).cache_enabled = true
  · rw [switch_to_eq_build_fail m id hcfg hc hb]
    exact ⟨rfl, rfl, rfl⟩
  · rw [switch_to_eq_nocache_fail m id (by simpa using hcfg) hb]
    exact ⟨rfl, rfl, rfl⟩

/-- C3 (amended): `push_page A` followed by `pop_page` restores the
previously active page id as current and re-invokes its enter hook exactly
once; the restored page is the identical cached instance regardless of its
`cache_enabled` flag, because `pop_page` always resumes the instance left in
the page cache and never rebuilds. -/
theorem c3_push_pop_restores (m : PageManager) (A B : PageId)
    (inst : PageInstance) (hcur : m.current_page_id = some B) (hAB : A ≠ B)
    (hinst : alookup m.cached_pages B = some inst)
    (hbuild : A ∈ m.builders) :
    (push_page m A).ok = true ∧
    (pop_page (push_page m A).mgr).ok = true ∧
    (pop_page (push_page m A).mgr).mgr.current_page_id = some B ∧
    (pop_page (push_page m A).mgr).mgr.page_stack = m.page_stack ∧
    alookup (pop_page (push_page m A).mgr).mgr.cached_pages B = some inst ∧
    ((push_page m A).trace ++ (pop_page (push_page m A).mgr).trace).count
      (B, HookEv.enter) = 1 := by
  obtain ⟨hok, hcurM, hstackM, _hcfgM, _hbM, hcachedM, htraceM⟩ :=
    switch_to_registered_spec { m with page_stack := B :: m.page_stack } A
      hbuild
  have hpush := push_page_eq_some m A B hcur
  have hpok : (push_page m A).ok = true := by rw [hpush]; exact hok
  have hpmgr : (push_page m A).mgr =
      (switch_to { m with page_stack := B :: m.page_stack } A).mgr := by
    rw [hpush]
  have hstackP : (push_page m A).mgr.page_stack = B :: m.page_stack := by
    rw [hpmgr]; exact hstackM
  have hcachedB : alookup (push_page m A).mgr.cached_pages B = some inst := by
    rw [hpmgr, hcachedM B (fun hx => hAB hx.symm)]
    exact hinst
  have hpop := pop_page_eq (push_page m A).mgr B m.page_stack hstackP
  refine ⟨hpok, ?_, ?_, ?_, ?_, ?_⟩
  · rw [hpop]
  · rw [hpop]
  · rw [hpop]
  · rw [hpop]; exact hcachedB
  · have hsw0 : ((switch_to { m with page_stack := B :: m.page_stack }
        A).trace).count (B, HookEv.enter) = 0 :=
      List.count_eq_zero.mpr (fun hmem => hAB (htraceM _ hmem rfl).symm)
    have hlv0 : (currentLeaveTrace (push_page m A).mgr).count
        (B, HookEv.enter) = 0 :=
      List.count_eq_zero.mpr
        (fun hmem => currentLeaveTrace_no_enter _ _ hmem rfl)
    have htr_push : (push_page m A).trace = [(B, HookEv.pause)]
        ++ (switch_to { m with page_stack := B :: m.page_stack } A).trace := by
      rw [hpush]
      simp [hinst]
    have htr_pop : (pop_page (push_page m A).mgr).trace =
        currentLeaveTrace (push_page m A).mgr
          ++ [(B, HookEv.resume), (B, HookEv.enter)] := by
      rw [hpop]
      simp [hcachedB]
    rw [htr_push, htr_pop]
    simp only [List.count_append, hsw0, hlv0]
    simp [List.count_cons]

/-- The page manager used by the C3 and C4 concrete scenarios: a `Title`
page is current and cached, `Title` is configured non-cacheable, builders
exist for `Game` and `Title` only. -/
def scenarioMgr : PageManager :=
  { cached_pages := [(PageId.Title, { pid := PageId.Title, gen := 0 })]
    current_page_id := some PageId.Title
    page_stack := []
    page_configs := [(PageId.Title, { cache_enabled := false })]
    builders := [PageId.Game, PageId.Title]
    nextGen := 1 }

/-- C3 (counterexample): with `cache_enabled = false` for the suspended
`Title` page, `push_page Game; pop_page` still restores the pre-push `Title`
instance (stamp 0, created before the run, as every instance built during
the run has stamp ≥ 1) — not a freshly built instance as the claim
states. -/
theorem c3_counterexample_not_fresh :
    (get_page_config scenarioMgr PageId.Title).cache_enabled = false ∧
    (push_page scenarioMgr PageId.Game).ok = true ∧
    (pop_page (push_page scenarioMgr PageId.Game).mgr).mgr.current_page_id
      = some PageId.Title ∧
    alookup (pop_page (push_page scenarioMgr
        PageId.Game).mgr).mgr.cached_pages PageId.Title
      = some { pid := PageId.Title, gen := 0 } ∧
    ({ pid := PageId.Title, gen := 0 } : PageInstance).gen <
      scenarioMgr.nextGen := by
  refine ⟨rfl, rfl, rfl, rfl, ?_⟩
  decide

/-- Witness for C3: the amended theorem applied to the concrete scenario
manager. -/
theorem c3_push_pop_restores_witness :
    (push_page scenarioMgr PageId.Game).ok = true ∧
    (pop_page (push_page scenarioMgr PageId.Game).mgr).ok = true ∧
    (pop_page (push_page scenarioMgr PageId.Game).mgr).mgr.current_page_id
      = some PageId.Title ∧
    (pop_page (push_page scenarioMgr PageId.Game).mgr).mgr.page_stack
      = scenarioMgr.page_stack ∧
    alookup (pop_page (push_page scenarioMgr
        PageId.Game).mgr).mgr.cached_pages PageId.Title
      = some { pid := PageId.Title, gen := 0 } ∧
    ((push_page scenarioMgr PageId.Game).trace
        ++ (pop_page (push_page scenarioMgr PageId.Game).mgr).trace).count
      (PageId.Title, HookEv.enter) = 1 :=
  c3_push_pop_restores scenarioMgr PageId.Game PageId.Title
    { pid := PageId.Title, gen := 0 } rfl (by decide) rfl (by decide)

/-- C4 (amended): a transition to a page id with no registered builder and
no cached instance returns an error; `switch_to` leaves both the current
page id and the page stack unchanged, while `push_page` leaves the current
page id unchanged but has already pushed the suspended current id onto the
page stack when the failure occurs. -/
theorem c4_unregistered_transition (m : PageManager) (id : PageId)
    (hb : id ∉ m.builders) (hc : alookup m.cached_pages id = none) :
    (switch_to m id).ok = false ∧
    (switch_to m id).mgr.current_page_id = m.current_page_id ∧
    (switch_to m id).mgr.page_stack = m.page_stack ∧
    (push_page m id).ok = false ∧
    (push_page m id).mgr.current_page_id = m.current_page_id ∧
    (push_page m id).mgr.page_stack =
      m.current_page_id.toList ++ m.page_stack := by
  obtain ⟨hok, hcur', hstack'⟩ := switch_to_unregistered_spec m id hb hc
  refine ⟨hok, hcur', hstack', ?_, ?_, ?_⟩ <;>
    cases hcur : m.current_page_id with
    | none =>
        try rw [show push_page m id = switch_to m id by
          simp [push_page, hcur]]
        try rw [hcur] at hcur' hstack' ⊢
        first
        | exact hok
        | (rw [hcur']; exact hcur)
        | simpa using hstack'
    | some cid =>
        obtain ⟨hok2, hcur2, hstack2⟩ := switch_to_unregistered_spec
          { m with page_stack := cid :: m.page_stack } id hb hc
        rw [push_page_eq_some m id cid hcur]
        first
        | exact hok2
        | (rw [hcur2]; exact hcur)
        | (rw [hstack2, hcur]; rfl)

/-- C4 (counterexample): pushing the unregistered `Settings` id fails, yet
the page stack has gained the suspended current id — the manager's state is
not the same as before the failed call. -/
theorem c4_counterexample_stack_mutated :
    (push_page scenarioMgr PageId.Settings).ok = false ∧
    scenarioMgr.page_stack = [] ∧
    (push_page scenarioMgr PageId.Settings).mgr.page_stack
      = [PageId.Title] ∧
    [PageId.Title] ≠ ([] : List PageId) := by
  refine ⟨rfl, rfl, rfl, ?_⟩
  decide

/-- Witness for C4: the amended theorem applied to the concrete scenario
manager and the unregistered `Settings` id. -/
theorem c4_unregistered_transition_witness :
    (switch_to scenarioMgr PageId.Settings).ok = false ∧
    (switch_to scenarioMgr PageId.Settings).mgr.current_page_id
      = scenarioMgr.current_page_id ∧
    (switch_to scenarioMgr PageId.Settings).mgr.page_stack
      = scenarioMgr.page_stack ∧
    (push_page scenarioMgr PageId.Settings).ok = false ∧
    (push_page scenarioMgr PageId.Settings).mgr.current_page_id
      = scenarioMgr.current_page_id ∧
    (push_page scenarioMgr PageId.Settings).mgr.page_stack =
      scenarioMgr.current_page_id.toList ++ scenarioMgr.page_stack :=
  c4_unregistered_transition scenarioMgr PageId.Settings (by decide) rfl

/-! ## Decode-cache lemmas (for C7) -/

/-- `decode_and_cache` on a cache hit for the wanted variant. -/
lemma dac_hit (disk : String → Option DecodedImage) (cache : BgaCache)
    (layer : BgaLayer) (path : String) (d : DecodedImage)
    (h : alookup cache (path, layer_to_variant layer) = some d) :
    decode_and_cache disk cache layer path =
      { result := some d, cache := cache, decodes := 0 } := by
  simp [decode_and_cache, h]

/-- `decode_and_cache` deriving a missing `RemoveBackground` entry from a
cached raw entry: no disk decode. -/
lemma dac_derive (disk : String → Option DecodedImage) (cache : BgaCache)
    (layer : BgaLayer) (path : String) (raw : DecodedImage)
    (hwant : layer_to_variant layer = DecodeVariant.RemoveBackground)
    (hmiss : alookup cache (path, layer_to_variant layer) = none)
    (hraw : alookup cache (path, DecodeVariant.Raw) = some raw) :
    decode_and_cache disk cache layer path =
      { result := some (processedOf raw)
        cache := ainsert cache (path, DecodeVariant.RemoveBackground)
          (processedOf raw)
        decodes := 0 } := by
  have hmiss' : alookup cache (path, DecodeVariant.RemoveBackground) = none :=
    hwant ▸ hmiss
  simp [decode_and_cache, hwant, hmiss', hraw]

/-- `decode_and_cache` on a full miss with an unreadable or undecodable
file: one failed disk decode, cache unchanged, no result. -/
lemma dac_disk_none (disk : String → Option DecodedImage) (cache : BgaCache)
    (layer : BgaLayer) (path : String)
    (hmiss : alookup cache (path, layer_to_variant layer) = none)
    (hraw : alookup cache (path, DecodeVariant.Raw) = none)
    (hdisk : disk path = none) :
    decode_and_cache disk cache layer path =
      { result := none, cache := cache, decodes := 1 } := by
  cases hwant : layer_to_variant layer with
  | Raw =>
      have hmiss' : alookup cache (path, DecodeVariant.Raw) = none :=
        hwant ▸ hmiss
      simp [decode_and_cache, hwant, hmiss', hdisk]
  | RemoveBackground =>
      have hmiss' : alookup cache (path, DecodeVariant.RemoveBackground)
          = none := hwant ▸ hmiss
      simp [decode_and_cache, hwant, hmiss', hraw, hdisk]

/-- `decode_and_cache` on a full miss with a readable file: a single disk
decode populates both variants and the wanted one is returned. -/
lemma dac_disk_some (disk : String → Option DecodedImage) (cache : BgaCache)
    (layer : BgaLayer) (path : String) (img : DecodedImage)
    (hmiss : alookup cache (path, layer_to_variant layer) = none)
    (hraw : alookup cache (path, DecodeVariant.Raw) = none)
    (hdisk : disk path = some img) :
    decode_and_cache disk cache layer path =
      { result := some (match layer_to_variant layer with
          | DecodeVariant.Raw => img
          | DecodeVariant.RemoveBackground => processedOf img)
        cache := ainsert (ainsert cache (path, DecodeVariant.Raw) img)
          (path, DecodeVariant.RemoveBackground) (processedOf img)
        decodes := 1 } := by
  cases hwant : layer_to_variant layer with
  | Raw =>
      have hmiss' : alookup cache (path, DecodeVariant.Raw) = none :=
        hwant ▸ hmiss
      simp [decode_and_cache, hwant, hmiss', hdisk, processedOf]
  | RemoveBackground =>
      have hmiss' : alookup cache (path, DecodeVariant.RemoveBackground)
          = none := hwant ▸ hmiss
      simp [decode_and_cache, hwant, hmiss', hraw, hdisk, processedOf]

/-- The two variant keys of one path differ. -/
lemma variantKey_ne (path : String) :
    ((path, DecodeVariant.Raw) : String × DecodeVariant)
      ≠ (path, DecodeVariant.RemoveBackground) := by
  intro h
  exact DecodeVariant.noConfusion (congrArg Prod.snd h)

/-- After a successful `decode_and_cache`, the returned entry is cached
under the wanted key, and at most one decode happened. -/
lemma dac_success_cached (disk : String → Option DecodedImage)
    (cache : BgaCache) (layer : BgaLayer) (path : String) (d : DecodedImage)
    (h : (decode_and_cache disk cache layer path).result = some d) :
    alookup (decode_and_cache disk cache layer path).cache
      (path, layer_to_variant layer) = some d ∧
    (decode_and_cache disk cache layer path).decodes ≤ 1 := by
  cases hhit : alookup cache (path, layer_to_variant layer) with
  | some d0 =>
      rw [dac_hit disk cache layer path d0 hhit] at h ⊢
      obtain rfl : d0 = d := by simpa using h
      exact ⟨hhit, by norm_num⟩
  | none =>
      cases hwant : layer_to_variant layer with
      | RemoveBackground =>
          cases hraw : alookup cache (path, DecodeVariant.Raw) with
          | some raw =>
              rw [dac_derive disk cache layer path raw hwant hhit hraw]
                at h ⊢
              obtain rfl : processedOf raw = d := by simpa using h
              exact ⟨alookup_ainsert_self _ _ _, by norm_num⟩
          | none =>
              cases hdisk : disk path with
              | none =>
                  rw [dac_disk_none disk cache layer path hhit hraw hdisk]
                    at h
                  simp at h
              | some img =>
                  rw [dac_disk_some disk cache layer path img hhit hraw
                    hdisk] at h ⊢
                  rw [hwant] at h ⊢
                  obtain rfl : processedOf img = d := by simpa using h
                  exact ⟨alookup_ainsert_self _ _ _, le_refl 1⟩
      | Raw =>
          have hraw : alookup cache (path, DecodeVariant.Raw) = none :=
            hwant ▸ hhit
          cases hdisk : disk path with
          | none =>
              rw [dac_disk_none disk cache layer path hhit hraw hdisk] at h
              simp at h
          | some img =>
              rw [dac_disk_some disk cache layer path img hhit hraw hdisk]
                at h ⊢
              rw [hwant] at h ⊢
              obtain rfl : img = d := by simpa using h
              have hkey : alookup
                  (ainsert (ainsert cache (path, DecodeVariant.Raw) img)
                    (path, DecodeVariant.RemoveBackground) (processedOf img))
                  (path, DecodeVariant.Raw) = some img := by
                rw [alookup_ainsert_ne _ _ _ _ (variantKey_ne path)]
                exact alookup_ainsert_self _ _ _
              exact ⟨hkey, le_refl 1⟩

/-- C7: `decode_and_cache` returns the variant selected by the layer; a hit
is served from cache without decoding; a missing `RemoveBackground` entry is
derived from a cached raw entry without decoding; otherwise a single disk
decode populates both variants; and a second call with the same layer and
path returns the byte-identical entry with zero further decodes, so two
calls trigger at most one disk decode. -/
theorem c7_decode_cache_idempotent :
    (∀ (disk : String → Option DecodedImage) (cache : BgaCache)
        (layer : BgaLayer) (path : String) (d : DecodedImage),
        alookup cache (path, layer_to_variant layer) = some d →
        decode_and_cache disk cache layer path =
          { result := some d, cache := cache, decodes := 0 }) ∧
    (∀ (disk : String → Option DecodedImage) (cache : BgaCache)
        (layer : BgaLayer) (path : String) (raw : DecodedImage),
        layer_to_variant layer = DecodeVariant.RemoveBackground →
        alookup cache (path, layer_to_variant layer) = none →
        alookup cache (path, DecodeVariant.Raw) = some raw →
        decode_and_cache disk cache layer path =
          { result := some (processedOf raw)
            cache := ainsert cache (path, DecodeVariant.RemoveBackground)
              (processedOf raw)
            decodes := 0 }) ∧
    (∀ (disk : String → Option DecodedImage) (cache : BgaCache)
        (layer : BgaLayer) (path : String) (img : DecodedImage),
        alookup cache (path, layer_to_variant layer) = none →
        alookup cache (path, DecodeVariant.Raw) = none →
        disk path = some img →
        alookup (decode_and_cache disk cache layer path).cache
            (path, DecodeVariant.Raw) = some img ∧
        alookup (decode_and_cache disk cache layer path).cache
            (path, DecodeVariant.RemoveBackground)
          = some (processedOf img) ∧
        (decode_and_cache disk cache layer path).decodes = 1) ∧
    (∀ (disk : String → Option DecodedImage) (cache : BgaCache)
        (layer : BgaLayer) (path : String) (d : DecodedImage),
        (decode_and_cache disk cache layer path).result = some d →
        (decode_and_cache disk cache layer path).decodes ≤ 1 ∧
        decode_and_cache disk (decode_and_cache disk cache layer path).cache
            layer path =
          { result := some d
            cache := (decode_and_cache disk cache layer path).cache
            decodes := 0 }) := by
  refine ⟨dac_hit, dac_derive, ?_, ?_⟩
  · intro disk cache layer path img hmiss hraw hdisk
    rw [dac_disk_some disk cache layer path img hmiss hraw hdisk]
    have hkey : alookup
        (ainsert (ainsert cache (path, DecodeVariant.Raw) img)
          (path, DecodeVariant.RemoveBackground) (processedOf img))
        (path, DecodeVariant.Raw) = some img := by
      rw [alookup_ainsert_ne _ _ _ _ (variantKey_ne path)]
      exact alookup_ainsert_self _ _ _
    exact ⟨hkey, alookup_ainsert_self _ _ _, rfl⟩
  · intro disk cache layer path d h
    obtain ⟨hcached, hdec⟩ := dac_success_cached disk cache layer path d h
    exact ⟨hdec, dac_hit disk _ layer path d hcached⟩

/-- A 1×1 gray test image. -/
def grayImg : DecodedImage := { rgba := [5, 5, 5, 255], width := 1, height := 1 }

/-- A one-file test disk. -/
def oneFileDisk : String → Option DecodedImage :=
  fun p => if p = "a" then some grayImg else none

/-- Witness for C7: every conjunct applied at concrete inputs — a hit on a
pre-populated cache, a derivation from a cached raw entry, a fresh disk
decode, and the idempotent second call. -/
theorem c7_decode_cache_idempotent_witness :
    (decode_and_cache oneFileDisk [(("a", DecodeVariant.Raw), grayImg)]
        BgaLayer.Bga "a" =
      { result := some grayImg
        cache := [(("a", DecodeVariant.Raw), grayImg)], decodes := 0 }) ∧
    (decode_and_cache oneFileDisk [(("a", DecodeVariant.Raw), grayImg)]
        BgaLayer.Layer "a" =
      { result := some (processedOf grayImg)
        cache := ainsert [(("a", DecodeVariant.Raw), grayImg)]
          ("a", DecodeVariant.RemoveBackground) (processedOf grayImg)
        decodes := 0 }) ∧
    (alookup (decode_and_cache oneFileDisk [] BgaLayer.Bga "a").cache
        ("a", DecodeVariant.Raw) = some grayImg ∧
      alookup (decode_and_cache oneFileDisk [] BgaLayer.Bga "a").cache
        ("a", DecodeVariant.RemoveBackground) = some (processedOf grayImg) ∧
      (decode_and_cache oneFileDisk [] BgaLayer.Bga "a").decodes = 1) ∧
    ((decode_and_cache oneFileDisk [] BgaLayer.Bga "a").decodes ≤ 1 ∧
      decode_and_cache oneFileDisk
          (decode_and_cache oneFileDisk [] BgaLayer.Bga "a").cache
          BgaLayer.Bga "a" =
        { result := some grayImg
          cache := (decode_and_cache oneFileDisk [] BgaLayer.Bga "a").cache
          decodes := 0 }) := by
  have hfst : (decode_and_cache oneFileDisk [] BgaLayer.Bga "a").result
      = some grayImg := by
    rw [dac_disk_some oneFileDisk [] BgaLayer.Bga "a" grayImg rfl rfl rfl]
    rfl
  exact ⟨c7_decode_cache_idempotent.1 oneFileDisk _ BgaLayer.Bga "a" grayImg
      rfl,
    c7_decode_cache_idempotent.2.1 oneFileDisk _ BgaLayer.Layer "a" grayImg
      rfl rfl rfl,
    c7_decode_cache_idempotent.2.2.1 oneFileDisk [] BgaLayer.Bga "a" grayImg
      rfl rfl rfl,
    c7_decode_cache_idempotent.2.2.2 oneFileDisk [] BgaLayer.Bga "a" grayImg
      hfst⟩

/-! ## Audio-preload lemmas (for C9) -/

/-- The cache-insertion fold of a preload batch never touches the entry of a
path whose every batch result is a failure. -/
lemma preload_fold_preserves (p : String) :
    ∀ (results : List (String × Option SampleBuf))
      (d : List (String × SampleBuf)),
      (∀ r ∈ results, r.1 = p → r.2 = none) →
      alookup (results.foldl
        (fun d r =>
          match r.2 with
          | some buf => ainsert d r.1 buf
          | none => d) d) p = alookup d p := by
  intro results
  induction results with
  | nil => intro d _; rfl
  | cons r rest ih =>
      intro d hfail
      cases hr : r.2 with
      | none =>
          simp only [List.foldl_cons, hr]
          exact ih d (fun x hx hxp => hfail x (List.mem_cons_of_mem _ hx) hxp)
      | some buf =>
          have hne : r.1 ≠ p := by
            intro hx
            have := hfail r (by simp) hx
            rw [hr] at this
            exact Option.noConfusion this
          simp only [List.foldl_cons, hr]
          rw [ih (ainsert d r.1 buf)
            (fun x hx hxp => hfail x (List.mem_cons_of_mem _ hx) hxp)]
          exact alookup_ainsert_ne _ _ _ _ (fun hx => hne hx.symm)

/-- C9: every `PreloadAll` request produces exactly one `PreloadFinished`
event — over any message sequence, the number of `PreloadFinished` events
equals the number of `PreloadAll` requests — the progress counter counts
every listed file including failing ones, and a file whose read or decode
fails is skipped without inserting a cache entry. -/
theorem c9_preload_finishes_once :
    (∀ (audioDisk : String → Option SampleBuf) (a : AudioState)
        (files : List String),
        (processPreloadAll audioDisk a files).2.1 =
          [AudioEvent.PreloadFinished] ∧
        (processPreloadAll audioDisk a files).2.2 = files.length) ∧
    (∀ (audioDisk : String → Option SampleBuf) (a : AudioState)
        (files : List String) (p : String),
        audioDisk p = none →
        alookup (processPreloadAll audioDisk a files).1.decoded p =
          alookup a.decoded p) ∧
    (∀ (audioDisk : String → Option SampleBuf) (a : AudioState)
        (msgs : List AudioMsg),
        (runAudioLoop audioDisk a msgs).2.count AudioEvent.PreloadFinished =
          msgs.countP isPreloadAll) := by
  refine ⟨fun audioDisk a files => ⟨rfl, rfl⟩, ?_, ?_⟩
  · intro audioDisk a files p hp
    show alookup ((files.map (fun q => (q, audioDisk q))).foldl _ a.decoded)
        p = alookup a.decoded p
    refine preload_fold_preserves p _ a.decoded ?_
    intro r hr hrp
    obtain ⟨q, _hq, rfl⟩ := List.mem_map.mp hr
    subst hrp
    exact hp
  · intro audioDisk a msgs
    induction msgs generalizing a with
    | nil => rfl
    | cons msg rest ih =>
        cases msg with
        | PreloadAll files =>
            show (([AudioEvent.PreloadFinished] ++
              (runAudioLoop audioDisk _ rest).2).count
                AudioEvent.PreloadFinished) = _
            rw [List.count_append, ih]
            simp [isPreloadAll, List.countP_cons, Nat.add_comm]
        | Play q =>
            show ((([] : List AudioEvent) ++
              (runAudioLoop audioDisk _ rest).2).count
                AudioEvent.PreloadFinished) = _
            rw [List.count_append, ih]
            simp [isPreloadAll, List.countP_cons]

/-- Witness for C9: the skip-on-failure part applied at a concrete one-file
preload whose only file is unreadable. -/
theorem c9_preload_finishes_once_witness :
    (processPreloadAll (fun _ => none) { decoded := [] } ["x"]).2.1 =
      [AudioEvent.PreloadFinished] ∧
    (processPreloadAll (fun _ => none) { decoded := [] } ["x"]).2.2 = 1 ∧
    alookup (processPreloadAll (fun _ => none)
        { decoded := [] } ["x"]).1.decoded "x" =
      alookup ({ decoded := [] } : AudioState).decoded "x" :=
  ⟨(c9_preload_finishes_once.1 (fun _ => none) { decoded := [] } ["x"]).1,
    (c9_preload_finishes_once.1 (fun _ => none) { decoded := [] } ["x"]).2,
    c9_preload_finishes_once.2.1 (fun _ => none) { decoded := [] } ["x"] "x"
      rfl⟩

/-! ## Flood-fill reachability lemmas (for C8) -/

lemma mem_cells_iff (w h : Nat) (p : Pos) :
    p ∈ cells w h ↔ p.1 < w ∧ p.2 < h := by
  simp [cells, Finset.mem_product, Finset.mem_range]

lemma blackCell_mem_cells (buf : List Nat) (w h : Nat) (p : Pos)
    (hp : blackCell buf w h p = true) : p ∈ cells w h := by
  rw [mem_cells_iff]
  simp only [blackCell, Bool.and_eq_true, decide_eq_true_eq] at hp
  exact ⟨hp.1.1, hp.1.2⟩

lemma subset_expand (buf : List Nat) (w h : Nat) (S : Finset Pos) :
    S ⊆ expand buf w h S :=
  fun x hx => Finset.mem_union_left _ hx

lemma expand_mem_cases (buf : List Nat) (w h : Nat) (S : Finset Pos)
    (q : Pos) (hq : q ∈ expand buf w h S) :
    q ∈ S ∨ (q ∈ cells w h ∧ blackCell buf w h q = true ∧
      ∃ p ∈ S, adj4 p q = true) := by
  rcases Finset.mem_union.mp hq with hq' | hq'
  · exact Or.inl hq'
  · obtain ⟨hc, hf⟩ := Finset.mem_filter.mp hq'
    exact Or.inr ⟨hc, hf⟩

lemma expand_subset_cells (buf : List Nat) (w h : Nat) (S : Finset Pos)
    (hS : S ⊆ cells w h) : expand buf w h S ⊆ cells w h := by
  intro q hq
  rcases expand_mem_cases buf w h S q hq with hq' | hq'
  · exact hS hq'
  · exact hq'.1

lemma iterate_subset_cells (buf : List Nat) (w h : Nat) (c : Pos)
    (hc : c ∈ cells w h) (k : Nat) :
    (expand buf w h)^[k] {c} ⊆ cells w h := by
  induction k with
  | zero => simpa using Finset.singleton_subset_iff.mpr hc
  | succ k ih =>
      rw [Function.iterate_succ_apply']
      exact expand_subset_cells buf w h _ ih

lemma iterate_mono_succ (buf : List Nat) (w h : Nat) (c : Pos) (k : Nat) :
    (expand buf w h)^[k] {c} ⊆ (expand buf w h)^[k + 1] {c} := by
  rw [Function.iterate_succ_apply']
  exact subset_expand buf w h _

lemma singleton_subset_iterate (buf : List Nat) (w h : Nat) (c : Pos)
    (k : Nat) : ({c} : Finset Pos) ⊆ (expand buf w h)^[k] {c} := by
  induction k with
  | zero => simp
  | succ k ih => exact ih.trans (iterate_mono_succ buf w h c k)

lemma iterate_stable (buf : List Nat) (w h : Nat) (S : Finset Pos)
    (hS : expand buf w h S = S) (n : Nat) :
    (expand buf w h)^[n] S = S := by
  induction n with
  | zero => rfl
  | succ n ih => rw [Function.iterate_succ_apply', ih, hS]

lemma iterate_stab_or_card (buf : List Nat) (w h : Nat) (c : Pos) :
    ∀ k, (expand buf w h)^[k + 1] {c} = (expand buf w h)^[k] {c} ∨
      k + 1 ≤ ((expand buf w h)^[k] {c}).card := by
  intro k
  induction k with
  | zero => right; simp
  | succ k ih =>
      by_cases hstab : (expand buf w h)^[k + 1] {c}
          = (expand buf w h)^[k] {c}
      · left
        rw [Function.iterate_succ_apply' _ (k + 1), hstab,
          ← Function.iterate_succ_apply' (expand buf w h) k]
        exact hstab
      · rcases ih with heq | hcard
        · exact absurd heq hstab
        · right
          have hss : (expand buf w h)^[k] {c} ⊂ (expand buf w h)^[k + 1] {c} :=
            (Finset.ssubset_iff_of_subset
              (iterate_mono_succ buf w h c k)).mpr (by
                rcases Finset.exists_of_ssubset
                  (lt_of_le_of_ne (iterate_mono_succ buf w h c k)
                    (Ne.symm hstab)) with ⟨x, hx1, hx2⟩
                exact ⟨x, hx1, hx2⟩)
          have := Finset.card_lt_card hss
          omega

lemma card_cells (w h : Nat) : (cells w h).card = w * h := by
  simp [cells]

lemma expand_reachSet_eq (buf : List Nat) (w h : Nat) (c : Pos)
    (hc : c ∈ cells w h) :
    expand buf w h (reachSet buf w h c) = reachSet buf w h c := by
  rcases iterate_stab_or_card buf w h c (w * h) with heq | hcard
  · rw [reachSet, ← Function.iterate_succ_apply' (expand buf w h) (w * h)]
    exact heq
  · exfalso
    have hle : ((expand buf w h)^[w * h] {c}).card ≤ (cells w h).card :=
      Finset.card_le_card (iterate_subset_cells buf w h c hc (w * h))
    rw [card_cells] at hle
    omega

/-- Along a `blackStep` chain from a black cell, every vertex is black. -/
lemma reflTransGen_blackCell (buf : List Nat) (w h : Nat) (c p : Pos)
    (hc : blackCell buf w h c = true)
    (hrt : Relation.ReflTransGen (blackStep buf w h) c p) :
    blackCell buf w h p = true := by
  induction hrt with
  | refl => exact hc
  | tail _ hstep _ => exact hstep.2.2

lemma reach_sound (buf : List Nat) (w h : Nat) (c : Pos)
    (hc : blackCell buf w h c = true) :
    ∀ (n : Nat) (q : Pos), q ∈ (expand buf w h)^[n] {c} →
      Relation.ReflTransGen (blackStep buf w h) c q := by
  intro n
  induction n with
  | zero =>
      intro q hq
      rw [Function.iterate_zero_apply, Finset.mem_singleton] at hq
      subst hq
      exact Relation.ReflTransGen.refl
  | succ n ih =>
      intro q hq
      rw [Function.iterate_succ_apply'] at hq
      rcases expand_mem_cases buf w h _ q hq with hq' | ⟨_, hblack, p, hp, hadj⟩
      · exact ih q hq'
      · have hrt := ih p hp
        have hpb := reflTransGen_blackCell buf w h c p hc hrt
        exact hrt.tail ⟨hadj, hpb, hblack⟩

lemma reach_complete (buf : List Nat) (w h : Nat) (c q : Pos)
    (hc : blackCell buf w h c = true)
    (hrt : Relation.ReflTransGen (blackStep buf w h) c q) :
    q ∈ reachSet buf w h c := by
  have hcc : c ∈ cells w h := blackCell_mem_cells buf w h c hc
  have hfix := expand_reachSet_eq buf w h c hcc
  induction hrt with
  | refl =>
      exact singleton_subset_iterate buf w h c (w * h)
        (Finset.mem_singleton_self c)
  | tail hpre hstep ih =>
      rename_i mid q'
      have hmid := ih
      have hq'cells : q' ∈ cells w h := blackCell_mem_cells buf w h q'
        hstep.2.2
      have : q' ∈ expand buf w h (reachSet buf w h c) :=
        Finset.mem_union_right _ (Finset.mem_filter.mpr
          ⟨hq'cells, hstep.2.2, mid, hmid, hstep.1⟩)
      rwa [hfix] at this

/-- The executable flood fixpoint computes exactly 4-connectivity inside the
black mask. -/
lemma mem_reachSet_iff (buf : List Nat) (w h : Nat) (c q : Pos)
    (hc : blackCell buf w h c = true) :
    q ∈ reachSet buf w h c ↔
      Relation.ReflTransGen (blackStep buf w h) c q := by
  constructor
  · exact reach_sound buf w h c hc (w * h) q
  · exact reach_complete buf w h c q hc

/-! ## Label lemmas (for C8) -/

lemma adj4_symm (p q : Pos) (h : adj4 p q = true) : adj4 q p = true := by
  simp only [adj4, Bool.or_eq_true, Bool.and_eq_true, decide_eq_true_eq]
    at h ⊢
  rcases h with ⟨h1, h2⟩ | ⟨h1, h2⟩
  · exact Or.inl ⟨h1.symm, h2.symm⟩
  · exact Or.inr ⟨h1.symm, h2.symm⟩

lemma blackStep_symm (buf : List Nat) (w h : Nat) :
    Symmetric (blackStep buf w h) := by
  intro p q hpq
  exact ⟨adj4_symm p q hpq.1, hpq.2.2, hpq.2.1⟩

lemma rt_blackStep_symm (buf : List Nat) (w h : Nat) (p q : Pos)
    (hrt : Relation.ReflTransGen (blackStep buf w h) p q) :
    Relation.ReflTransGen (blackStep buf w h) q p :=
  Relation.ReflTransGen.symmetric (blackStep_symm buf w h) hrt

lemma reachSet_eq_of_rt (buf : List Nat) (w h : Nat) (p q : Pos)
    (hp : blackCell buf w h p = true) (hq : blackCell buf w h q = true)
    (hrt : Relation.ReflTransGen (blackStep buf w h) p q) :
    reachSet buf w h p = reachSet buf w h q := by
  ext x
  rw [mem_reachSet_iff buf w h p x hp, mem_reachSet_iff buf w h q x hq]
  constructor
  · intro hx
    exact Relation.ReflTransGen.trans (rt_blackStep_symm buf w h p q hrt) hx
  · intro hx
    exact Relation.ReflTransGen.trans hrt hx

lemma self_mem_reachSet (buf : List Nat) (w h : Nat) (c : Pos) :
    c ∈ reachSet buf w h c :=
  singleton_subset_iterate buf w h c (w * h) (Finset.mem_singleton_self c)

lemma posIdx_inj (w : Nat) (p q : Pos) (hp : p.1 < w) (hq : q.1 < w)
    (h : posIdx w p = posIdx w q) : p = q := by
  have hw : 0 < w := Nat.lt_of_le_of_lt (Nat.zero_le _) hp
  unfold posIdx at h
  have hdiv : ∀ (x : Pos), x.1 < w → (x.2 * w + x.1) / w = x.2 := by
    intro x hx
    rw [Nat.add_comm, Nat.mul_comm, Nat.add_mul_div_left _ _ hw,
      Nat.div_eq_of_lt hx]
    omega
  have h2 : p.2 = q.2 := by
    have := congrArg (· / w) h
    simpa [hdiv p hp, hdiv q hq] using this
  have h1 : p.1 = q.1 := by
    rw [h2] at h
    omega
  exact Prod.ext h1 h2

lemma labelOf_ne_zero_iff (buf : List Nat) (w h : Nat) (p : Pos) :
    labelOf buf w h p ≠ 0 ↔ blackCell buf w h p = true := by
  by_cases hb : blackCell buf w h p = true <;> simp [labelOf, hb]

/-- Foreground labels agree exactly on 4-connected pixels. -/
lemma labelOf_eq_iff (buf : List Nat) (w h : Nat) (p q : Pos)
    (hp : blackCell buf w h p = true) (hq : blackCell buf w h q = true) :
    labelOf buf w h p = labelOf buf w h q ↔
      Relation.ReflTransGen (blackStep buf w h) p q := by
  constructor
  · intro heq
    simp only [labelOf, hp, hq, if_true, Nat.add_right_cancel_iff] at heq
    have hpne : ((reachSet buf w h p).image (posIdx w)).Nonempty :=
      ⟨posIdx w p, Finset.mem_image_of_mem _ (self_mem_reachSet buf w h p)⟩
    have hqne : ((reachSet buf w h q).image (posIdx w)).Nonempty :=
      ⟨posIdx w q, Finset.mem_image_of_mem _ (self_mem_reachSet buf w h q)⟩
    rw [← Finset.coe_min' hpne, ← Finset.coe_min' hqne,
      WithTop.untop'_coe, WithTop.untop'_coe] at heq
    obtain ⟨x, hxmem, hxval⟩ :=
      Finset.mem_image.mp (Finset.min'_mem _ hpne)
    obtain ⟨y, hymem, hyval⟩ :=
      Finset.mem_image.mp (Finset.min'_mem _ hqne)
    have hxcells : x ∈ cells w h :=
      iterate_subset_cells buf w h p (blackCell_mem_cells buf w h p hp)
        (w * h) hxmem
    have hycells : y ∈ cells w h :=
      iterate_subset_cells buf w h q (blackCell_mem_cells buf w h q hq)
        (w * h) hymem
    have hxy : x = y := by
      apply posIdx_inj w x y ((mem_cells_iff w h x).mp hxcells).1
        ((mem_cells_iff w h y).mp hycells).1
      rw [hxval, hyval]
      omega
    have hrpx := (mem_reachSet_iff buf w h p x hp).mp hxmem
    have hrqy := (mem_reachSet_iff buf w h q y hq).mp hymem
    rw [← hxy] at hrqy
    exact Relation.ReflTransGen.trans hrpx
      (rt_blackStep_symm buf w h q x hrqy)
  · intro hrt
    simp [labelOf, hp, hq, reachSet_eq_of_rt buf w h p q hp hq hrt]

/-! ## Corner-target lemmas (for C8) -/

/-- The corner-label fold collects exactly the nonzero labels of the scanned
corners, as long as the 4-slot buffer cannot overflow. -/
lemma collect_fold_mem (buf : List Nat) (w h : Nat) :
    ∀ (cs : List Pos) (acc : List Nat), acc.length + cs.length ≤ 4 →
      ∀ l, l ∈ cs.foldl
        (fun acc c =>
          let lc := labelOf buf w h c
          if lc = 0 ∨ lc ∈ acc ∨ 4 ≤ acc.length then acc else acc ++ [lc])
        acc ↔
        l ∈ acc ∨ (l ≠ 0 ∧ ∃ c ∈ cs, labelOf buf w h c = l) := by
  intro cs
  induction cs with
  | nil => intro acc _ l; simp
  | cons c cs' ih =>
      intro acc hlen l
      simp only [List.length_cons] at hlen
      rw [List.foldl_cons]
      by_cases h0 : labelOf buf w h c = 0
      · rw [if_pos (Or.inl h0), ih acc (by omega) l]
        constructor
        · rintro (hmem | ⟨hne, c', hc', hl⟩)
          · exact Or.inl hmem
          · exact Or.inr ⟨hne, c', List.mem_cons_of_mem _ hc', hl⟩
        · rintro (hmem | ⟨hne, c', hc', hl⟩)
          · exact Or.inl hmem
          · rcases List.mem_cons.mp hc' with rfl | hc''
            · exact absurd (hl ▸ h0) hne
            · exact Or.inr ⟨hne, c', hc'', hl⟩
      · by_cases hmem : labelOf buf w h c ∈ acc
        · rw [if_pos (Or.inr (Or.inl hmem)), ih acc (by omega) l]
          constructor
          · rintro (hm | ⟨hne, c', hc', hl⟩)
            · exact Or.inl hm
            · exact Or.inr ⟨hne, c', List.mem_cons_of_mem _ hc', hl⟩
          · rintro (hm | ⟨hne, c', hc', hl⟩)
            · exact Or.inl hm
            · rcases List.mem_cons.mp hc' with rfl | hc''
              · exact Or.inl (hl ▸ hmem)
              · exact Or.inr ⟨hne, c', hc'', hl⟩
        · have hnotfull : ¬ 4 ≤ acc.length := by omega
          rw [if_neg (by
            push_neg
            exact ⟨h0, hmem, by omega⟩)]
          rw [ih (acc ++ [labelOf buf w h c]) (by
            simp only [List.length_append, List.length_singleton]
            omega) l]
          constructor
          · rintro (hm | ⟨hne, c', hc', hl⟩)
            · rcases List.mem_append.mp hm with hm' | hm'
              · exact Or.inl hm'
              · rcases List.mem_singleton.mp hm' with rfl
                exact Or.inr ⟨h0, c, List.mem_cons_self _ _, rfl⟩
            · exact Or.inr ⟨hne, c', List.mem_cons_of_mem _ hc', hl⟩
          · rintro (hm | ⟨hne, c', hc', hl⟩)
            · exact Or.inl (List.mem_append_left _ hm)
            · rcases List.mem_cons.mp hc' with rfl | hc''
              · exact Or.inl (List.mem_append_right _
                  (List.mem_singleton.mpr hl.symm))
              · exact Or.inr ⟨hne, c', hc'', hl⟩

/-- Membership in the collected corner targets: exactly the nonzero corner
labels. -/
lemma mem_collectTargets_iff (buf : List Nat) (w h : Nat) (l : Nat) :
    l ∈ collectTargets buf w h ↔
      l ≠ 0 ∧ ∃ c ∈ cornerList w h, labelOf buf w h c = l := by
  rw [collectTargets, collect_fold_mem buf w h (cornerList w h) [] (by
    simp [cornerList]) l]
  simp

/-! ## Background-removal theorem (C8) -/

/-- The zeroing condition computed by `remove_background` holds exactly on
pixels of corner-touching black regions. -/
lemma zero_condition_iff (buf : List Nat) (w h : Nat) (p : Pos) :
    (labelOf buf w h p ≠ 0 ∧ labelOf buf w h p ∈ collectTargets buf w h) ↔
      inCornerRegion buf w h p := by
  constructor
  · rintro ⟨hl0, hmem⟩
    have hpb : blackCell buf w h p = true :=
      (labelOf_ne_zero_iff buf w h p).mp hl0
    obtain ⟨hne, c, hc, hlab⟩ := (mem_collectTargets_iff buf w h _).mp hmem
    have hcb : blackCell buf w h c = true :=
      (labelOf_ne_zero_iff buf w h c).mp (by rw [hlab]; exact hl0)
    exact ⟨c, hc, hcb, (labelOf_eq_iff buf w h c p hcb hpb).mp hlab⟩
  · rintro ⟨c, hc, hcb, hrt⟩
    have hpb : blackCell buf w h p = true :=
      reflTransGen_blackCell buf w h c p hcb hrt
    have hl0 : labelOf buf w h p ≠ 0 :=
      (labelOf_ne_zero_iff buf w h p).mpr hpb
    refine ⟨hl0, (mem_collectTargets_iff buf w h _).mpr
      ⟨hl0, c, hc, (labelOf_eq_iff buf w h c p hcb hpb).mpr hrt⟩⟩

/-- A black pixel's 4-byte slice lies inside the buffer. -/
lemma blackCell_slice (buf : List Nat) (w h : Nat) (p : Pos)
    (hp : blackCell buf w h p = true) :
    pixelBase w p + 4 ≤ buf.length := by
  have h2 : isBlackPix buf w p = true := by
    simp only [blackCell, Bool.and_eq_true] at hp
    exact hp.2
  simp only [isBlackPix, Bool.and_eq_true, decide_eq_true_eq] at h2
  exact h2.1.1.1.1

/-- The byte offset of a byte index's pixel is the index rounded down to a
multiple of 4. -/
lemma pixelBase_pixOfByte (w i : Nat) :
    pixelBase w (pixOfByte w i) = 4 * (i / 4) := by
  unfold pixelBase pixOfByte
  simp only
  rw [Nat.mul_comm _ 4]
  congr 1
  rw [Nat.mul_comm]
  exact Nat.div_add_mod (i / 4) w

/-- C8: `remove_background` preserves the buffer length and zeroes exactly
the bytes of pixels lying in a 4-connected pure-black region that contains
one of the four image corners; every other byte keeps its original value. -/
theorem c8_remove_background_spec (buf : List Nat) (w h : Nat)
    (hw : 0 < w) (hh : 0 < h) :
    (remove_background buf w h).length = buf.length ∧
    ∀ i, i < buf.length →
      (inCornerRegion buf w h (pixOfByte w i) →
        (remove_background buf w h).getD i 0 = 0) ∧
      (¬ inCornerRegion buf w h (pixOfByte w i) →
        (remove_background buf w h).getD i 0 = buf.getD i 0) := by
  have hlen : (remove_background buf w h).length = buf.length := by
    simp [remove_background]
  refine ⟨hlen, ?_⟩
  intro i hi
  have hi' : i < (remove_background buf w h).length := by rw [hlen]; exact hi
  have hbyte : (remove_background buf w h).getD i 0 =
      (if labelOf buf w h (pixOfByte w i) ≠ 0 ∧
          labelOf buf w h (pixOfByte w i) ∈ collectTargets buf w h ∧
          4 * (i / 4) + 4 ≤ buf.length
        then 0 else buf.get ⟨i, hi⟩) := by
    rw [List.getD_eq_get _ _ hi']
    show (List.mapIdx _ buf).get ⟨i, hi'⟩ = _
    rw [List.get_mapIdx buf _ i hi]
  constructor
  · intro hreg
    obtain ⟨hl0, hmem⟩ := (zero_condition_iff buf w h _).mpr hreg
    have hpb : blackCell buf w h (pixOfByte w i) = true :=
      (labelOf_ne_zero_iff buf w h _).mp hl0
    have hslice : 4 * (i / 4) + 4 ≤ buf.length := by
      rw [← pixelBase_pixOfByte w i]
      exact blackCell_slice buf w h _ hpb
    rw [hbyte]
    exact if_pos ⟨hl0, hmem, hslice⟩
  · intro hreg
    have hcond : ¬ (labelOf buf w h (pixOfByte w i) ≠ 0 ∧
        labelOf buf w h (pixOfByte w i) ∈ collectTargets buf w h ∧
        4 * (i / 4) + 4 ≤ buf.length) := by
      rintro ⟨hl0, hmem, _⟩
      exact hreg ((zero_condition_iff buf w h _).mp ⟨hl0, hmem⟩)
    rw [hbyte, if_neg hcond]
    exact (List.getD_eq_get _ _ hi).symm

/-- A 2×1 test buffer: a black corner pixel followed by a gray pixel. -/
def testBuf : List Nat := [0, 0, 0, 255, 7, 7, 7, 255]

/-- Witness for C8: the theorem applied to the concrete 2×1 test image. -/
theorem c8_remove_background_spec_witness :
    (0 < 2 ∧ 0 < 1) ∧
    ((remove_background testBuf 2 1).length = testBuf.length ∧
      ∀ i, i < testBuf.length →
        (inCornerRegion testBuf 2 1 (pixOfByte 2 i) →
          (remove_background testBuf 2 1).getD i 0 = 0) ∧
        (¬ inCornerRegion testBuf 2 1 (pixOfByte 2 i) →
          (remove_background testBuf 2 1).getD i 0 = testBuf.getD i 0)) :=
  ⟨⟨by decide, by decide⟩,
    c8_remove_background_spec testBuf 2 1 (by decide) (by decide)⟩

end NebulaTunes
